import Mathlib

/-!
# near-swap: verification of the plan Registry, Pricer and Scheduler core

Shallow embedding of the Go sources of `ademuanthony/near-swap`
(`src/pkg/plan/manager.go`, `src/pkg/plan/pricer.go`, the plan type
declarations concatenated into `manager.go`, and the executor in
`src/unnamed/part_005`).

Modelling conventions:
* Go `float64` values are modelled as exact rationals (`ℚ`).
  `strconv.ParseFloat` is modelled by `parseFloat`, a parser for decimal
  numerals (optional sign, integer/fraction digits, optional decimal
  exponent).  The model has no NaN/Inf/hex literals and no overflow-range
  errors; all claims considered live inside this finite-decimal domain.
  Where Go discards the `ParseFloat` error (`v, _ := strconv.ParseFloat`,
  which yields `0` on a syntax error), the model uses `parseGoF`, which
  defaults to `0`.
* `fmt.Sprintf("%.8f", x)` is modelled by `fmt8`, which rounds to eight
  decimal places (round-half-up on the exact rational; Go rounds the
  binary double to nearest) and prints sign, integer digits, a dot and
  exactly eight fraction digits.
* Status and condition enumerations are Go string types; they are kept as
  `String` with named constants, exactly as the source declares them.
* Wall-clock effects (`time.Now`, `uuid.New`) are passed in explicitly
  (`now : Nat` timestamps, `today : String` dates, `genId : String`).
* The `Manager` loads a plan from storage, mutates it and stores it back;
  each operation is modelled as a function from the loaded plan to
  `Except String TradingPlan` (`.error` means storage is left unchanged).
-/

namespace NearSwap

/-! ## Decimal numeral model of Go float strings -/

/-- Numeric value of a decimal digit character. -/
def digVal (c : Char) : Nat := c.toNat - 48

/-- Value of a big-endian list of digit characters. -/
def natOfDigits (cs : List Char) : Nat := cs.foldl (fun a c => a * 10 + digVal c) 0

/-- All characters are decimal digits. -/
def allDigits (cs : List Char) : Bool := cs.all Char.isDigit

/-- Split a character list at the first exponent marker `e`/`E`. -/
def breakAtExp : List Char → List Char × Option (List Char)
  | [] => ([], none)
  | c :: cs =>
    if c = 'e' ∨ c = 'E' then ([], some cs)
    else
      let r := breakAtExp cs
      (c :: r.1, r.2)

/-- Split a character list at the first decimal point. -/
def breakAtDot : List Char → List Char × Option (List Char)
  | [] => ([], none)
  | c :: cs =>
    if c = '.' then ([], some cs)
    else
      let r := breakAtDot cs
      (c :: r.1, r.2)

/-- `10 ^ n` on `ℚ`, written so that it reduces definitionally
(the `Monoid.npow` of the Mathlib field structure does not). -/
def pow10 : Nat → ℚ
  | 0 => 1
  | n + 1 => pow10 n * 10

/-- `10 ^ e` on `ℚ` for an integer exponent, definitionally reducible. -/
def zpow10 : ℤ → ℚ
  | Int.ofNat n => pow10 n
  | Int.negSucc n => 1 / pow10 (n + 1)

/-- Round-half-up to the nearest integer, via the computable
`Batteries` floor on `ℚ` (agrees with Mathlib `round`). -/
def goRound (q : ℚ) : ℤ := (q + 1 / 2).floor

/-- Parse the mantissa `digits[.digits]` of a decimal numeral
(at least one digit overall, as in `strconv.ParseFloat`). -/
def parseMantissa (cs : List Char) : Option ℚ :=
  (breakAtDot cs).2.elim
    (if (breakAtDot cs).1 ≠ [] ∧ allDigits (breakAtDot cs).1 then
      some ((natOfDigits (breakAtDot cs).1 : ℚ))
    else none)
    (fun fp =>
      if ((breakAtDot cs).1 ≠ [] ∨ fp ≠ []) ∧ allDigits (breakAtDot cs).1 ∧ allDigits fp then
        some ((natOfDigits (breakAtDot cs).1 : ℚ) + (natOfDigits fp : ℚ) / pow10 fp.length)
      else none)

/-- Parse an optionally signed decimal exponent. -/
def parseExp (cs : List Char) : Option ℤ :=
  match cs with
  | [] => none
  | c :: ds =>
    if c = '-' then
      if ds ≠ [] ∧ allDigits ds then some (-(natOfDigits ds : ℤ)) else none
    else if c = '+' then
      if ds ≠ [] ∧ allDigits ds then some ((natOfDigits ds : ℤ)) else none
    else if allDigits (c :: ds) then some ((natOfDigits (c :: ds) : ℤ))
    else none

/-- Parse an unsigned decimal numeral with optional exponent part. -/
def parseUnsigned (cs : List Char) : Option ℚ :=
  (breakAtExp cs).2.elim (parseMantissa (breakAtExp cs).1)
    (fun ecs =>
      (parseMantissa (breakAtExp cs).1).bind
        (fun m => (parseExp ecs).map (fun e => m * zpow10 e)))

/-- Parse an optionally signed decimal numeral. -/
def parseSigned (cs : List Char) : Option ℚ :=
  match cs with
  | [] => none
  | c :: rest =>
    if c = '-' then (parseUnsigned rest).map (fun q => -q)
    else if c = '+' then parseUnsigned rest
    else parseUnsigned (c :: rest)

/-- Model of `strconv.ParseFloat(s, 64)` on finite decimal numerals. -/
def parseFloat (s : String) : Option ℚ := parseSigned s.toList

/-- Model of `v, _ := strconv.ParseFloat(s, 64)`: Go returns `0` together
with the ignored error on a syntax failure. -/
def parseGoF (s : String) : ℚ := (parseFloat s).getD 0

/-- Big-endian digit characters of a natural number (fuel-indexed so that
it reduces definitionally; `natDigits` supplies sufficient fuel). -/
def natDigitsAux : Nat → Nat → List Char
  | 0, _ => []
  | fuel + 1, n =>
    if n < 10 then [Nat.digitChar n]
    else natDigitsAux fuel (n / 10) ++ [Nat.digitChar (n % 10)]

/-- Big-endian digit characters of a natural number. -/
def natDigits (n : Nat) : List Char := natDigitsAux (n + 1) n

/-- The eight-fraction-digit block of `%.8f`: the digits of `n < 10^8`,
left-padded with zeros to width eight. -/
def fracDigits8 (n : Nat) : List Char :=
  List.replicate (8 - (natDigits n).length) '0' ++ natDigits n

/-- Model of `fmt.Sprintf("%.8f", q)`: round to 8 decimal places and print
sign, integer part, dot, and exactly eight fraction digits. -/
def fmt8 (q : ℚ) : String :=
  String.mk ((if goRound (q * 100000000) < 0 then ['-'] else []) ++
    natDigits ((goRound (q * 100000000)).natAbs / 100000000) ++
    '.' :: fracDigits8 ((goRound (q * 100000000)).natAbs % 100000000))

/-- `q` rounded to eight decimal places: the exact value stored by a
`%.8f`-formatted field. -/
def round8 (q : ℚ) : ℚ := ((goRound (q * 100000000) : ℤ) : ℚ) / 100000000

/-- `x` is representable with eight decimal places. -/
def Dec8 (x : ℚ) : Prop := ∃ n : ℤ, x = (n : ℚ) / 100000000

/-! ## Basic lemmas about the numeral model -/

theorem natOfDigits_append_singleton (xs : List Char) (c : Char) :
    natOfDigits (xs ++ [c]) = 10 * natOfDigits xs + digVal c := by
  simp [natOfDigits, List.foldl_append, Nat.mul_comm]

theorem digVal_digitChar {n : Nat} (h : n < 10) : digVal (Nat.digitChar n) = n := by
  interval_cases n <;> decide

theorem isDigit_digitChar {n : Nat} (h : n < 10) : (Nat.digitChar n).isDigit = true := by
  interval_cases n <;> decide

theorem natOfDigits_natDigitsAux :
    ∀ fuel n, n < 10 ^ fuel → natOfDigits (natDigitsAux fuel n) = n := by
  intro fuel
  induction fuel with
  | zero => intro n hn; interval_cases n; decide
  | succ f ih =>
    intro n hn
    rw [natDigitsAux]
    by_cases h10 : n < 10
    · simp only [if_pos h10]
      have : natOfDigits [Nat.digitChar n] = digVal (Nat.digitChar n) := by
        simp [natOfDigits]
      rw [this, digVal_digitChar h10]
    · simp only [if_neg h10]
      rw [natOfDigits_append_singleton]
      have hdiv : n / 10 < 10 ^ f := by
        have h1 : n < 10 * 10 ^ f := by
          rw [pow_succ] at hn; omega
        exact Nat.div_lt_of_lt_mul h1
      rw [ih (n / 10) hdiv, digVal_digitChar (Nat.mod_lt n (by norm_num))]
      omega

theorem natOfDigits_natDigits (n : Nat) : natOfDigits (natDigits n) = n := by
  have h : n < 10 ^ (n + 1) := by
    calc n < 2 ^ n := Nat.lt_two_pow n
    _ ≤ 10 ^ n := Nat.pow_le_pow_left (by norm_num) n
    _ ≤ 10 ^ (n + 1) := Nat.pow_le_pow_right (by norm_num) (Nat.le_succ n)
  exact natOfDigits_natDigitsAux (n + 1) n h

theorem allDigits_natDigitsAux :
    ∀ fuel n, allDigits (natDigitsAux fuel n) = true := by
  intro fuel
  induction fuel with
  | zero => intro n; simp [natDigitsAux, allDigits]
  | succ f ih =>
    intro n
    rw [natDigitsAux]
    by_cases h10 : n < 10
    · simp only [if_pos h10]
      simp [allDigits, isDigit_digitChar h10]
    · simp only [if_neg h10]
      have h1 := ih (n / 10)
      have h2 : (Nat.digitChar (n % 10)).isDigit = true :=
        isDigit_digitChar (Nat.mod_lt n (by norm_num))
      simp only [allDigits, List.all_append, List.all_cons, List.all_nil] at *
      simp [h1, h2]

theorem allDigits_natDigits (n : Nat) : allDigits (natDigits n) = true :=
  allDigits_natDigitsAux (n + 1) n

theorem natDigitsAux_ne_nil :
    ∀ fuel n, fuel ≠ 0 → natDigitsAux fuel n ≠ [] := by
  intro fuel n hf
  cases fuel with
  | zero => exact absurd rfl hf
  | succ f =>
    rw [natDigitsAux]
    by_cases h10 : n < 10
    · simp only [if_pos h10]
      simp
    · simp only [if_neg h10]
      intro h
      exact absurd (List.append_eq_nil.mp h).2 (by simp)

theorem natDigits_ne_nil (n : Nat) : natDigits n ≠ [] :=
  natDigitsAux_ne_nil (n + 1) n (by omega)

theorem natDigitsAux_length_le :
    ∀ fuel n k, n < 10 ^ k → 1 ≤ k → (natDigitsAux fuel n).length ≤ k := by
  intro fuel
  induction fuel with
  | zero => intro n k _ hk; simp [natDigitsAux]
  | succ f ih =>
    intro n k hn hk
    rw [natDigitsAux]
    by_cases h10 : n < 10
    · simp only [if_pos h10, List.length_singleton]; omega
    · simp only [if_neg h10, List.length_append, List.length_singleton]
      have hk2 : 2 ≤ k := by
        by_contra hlt
        have : k = 1 := by omega
        subst this
        simp at hn
        omega
      have hdiv : n / 10 < 10 ^ (k - 1) := by
        have h1 : 10 ^ k = 10 * 10 ^ (k - 1) := by
          rw [← pow_succ']
          congr 1
          omega
        rw [h1] at hn
        exact Nat.div_lt_of_lt_mul hn
      have := ih (n / 10) (k - 1) hdiv (by omega)
      omega

theorem natDigits_length_le {n k : Nat} (hn : n < 10 ^ k) (hk : 1 ≤ k) :
    (natDigits n).length ≤ k :=
  natDigitsAux_length_le (n + 1) n k hn hk

theorem pow10_eq (n : Nat) : pow10 n = (10 : ℚ) ^ n := by
  induction n with
  | zero => rfl
  | succ n ih => rw [pow10, ih, pow_succ]

theorem ratFloor_eq_floor (q : ℚ) : q.floor = ⌊q⌋ := by
  rw [Rat.floor_def', Rat.floor_def]

theorem goRound_eq_round (q : ℚ) : goRound q = round q := by
  rw [goRound, ratFloor_eq_floor, round_eq]

theorem ne_of_isDigit {c c' : Char} (h : c.isDigit = true) (h' : c'.isDigit = false) :
    c ≠ c' := fun he => by subst he; rw [h] at h'; exact Bool.noConfusion h'

theorem allDigits_iff {l : List Char} :
    allDigits l = true ↔ ∀ c ∈ l, c.isDigit = true := by
  simp [allDigits, List.all_eq_true]

theorem breakAtExp_no_marker {l : List Char}
    (h : ∀ c ∈ l, c ≠ 'e' ∧ c ≠ 'E') : breakAtExp l = (l, none) := by
  induction l with
  | nil => rfl
  | cons c cs ih =>
    have hc := h c (by simp)
    have hcs : ∀ x ∈ cs, x ≠ 'e' ∧ x ≠ 'E' := fun x hx => h x (by simp [hx])
    rw [breakAtExp]
    rw [if_neg (by tauto), ih hcs]

theorem breakAtDot_append {l : List Char} (rest : List Char)
    (h : ∀ c ∈ l, c ≠ '.') : breakAtDot (l ++ '.' :: rest) = (l, some rest) := by
  induction l with
  | nil => simp [breakAtDot]
  | cons c cs ih =>
    have hc := h c (by simp)
    have hcs : ∀ x ∈ cs, x ≠ '.' := fun x hx => h x (by simp [hx])
    rw [List.cons_append, breakAtDot]
    rw [if_neg hc, ih hcs]

theorem natOfDigits_cons_zero (l : List Char) :
    natOfDigits ('0' :: l) = natOfDigits l := rfl

theorem natOfDigits_replicate_zero (k : Nat) (l : List Char) :
    natOfDigits (List.replicate k '0' ++ l) = natOfDigits l := by
  induction k with
  | zero => simp
  | succ k ih => rw [List.replicate_succ, List.cons_append, natOfDigits_cons_zero, ih]

theorem mem_fracDigits8_isDigit {n : Nat} {c : Char} (h : c ∈ fracDigits8 n) :
    c.isDigit = true := by
  rcases List.mem_append.mp h with h0 | hd
  · rw [List.eq_of_mem_replicate h0]; decide
  · exact allDigits_iff.mp (allDigits_natDigits n) c hd

theorem fracDigits8_length {n : Nat} (h : n < 100000000) :
    (fracDigits8 n).length = 8 := by
  have hlen : (natDigits n).length ≤ 8 :=
    @natDigits_length_le n 8 (by norm_num; omega) (by norm_num)
  simp [fracDigits8, List.length_append, List.length_replicate]
  omega

theorem natOfDigits_fracDigits8 (n : Nat) : natOfDigits (fracDigits8 n) = n := by
  rw [fracDigits8, natOfDigits_replicate_zero, natOfDigits_natDigits]

theorem parseSigned_of_head_digit {c : Char} (h : c.isDigit = true) (cs : List Char) :
    parseSigned (c :: cs) = parseUnsigned (c :: cs) := by
  have h1 : c ≠ '-' := ne_of_isDigit h (by decide)
  have h2 : c ≠ '+' := ne_of_isDigit h (by decide)
  rw [parseSigned]
  rw [if_neg h1, if_neg h2]

/-- Parsing back a `%.8f`-formatted string recovers the rounded value. -/
theorem parseFloat_fmt8 (q : ℚ) : parseFloat (fmt8 q) = some (round8 q) := by
  have hmain : ∀ m : Nat,
      parseUnsigned (natDigits (m / 100000000) ++ '.' :: fracDigits8 (m % 100000000)) =
        some ((m : ℚ) / 100000000) := by
    intro m
    set ip := m / 100000000 with hip
    set fp := m % 100000000 with hfp
    have hipd : ∀ c ∈ natDigits ip, c.isDigit = true :=
      allDigits_iff.mp (allDigits_natDigits ip)
    have hfpd : ∀ c ∈ fracDigits8 fp, c.isDigit = true := fun c hc =>
      mem_fracDigits8_isDigit hc
    have hexp : breakAtExp (natDigits ip ++ '.' :: fracDigits8 fp) =
        (natDigits ip ++ '.' :: fracDigits8 fp, none) := by
      apply breakAtExp_no_marker
      intro c hc
      rcases List.mem_append.mp hc with h1 | h1
      · exact ⟨ne_of_isDigit (hipd c h1) (by decide), ne_of_isDigit (hipd c h1) (by decide)⟩
      · rcases List.mem_cons.mp h1 with rfl | h2
        · exact ⟨by decide, by decide⟩
        · exact ⟨ne_of_isDigit (hfpd c h2) (by decide), ne_of_isDigit (hfpd c h2) (by decide)⟩
    have hdot : breakAtDot (natDigits ip ++ '.' :: fracDigits8 fp) =
        (natDigits ip, some (fracDigits8 fp)) := by
      apply breakAtDot_append
      intro c hc
      exact ne_of_isDigit (hipd c hc) (by decide)
    rw [parseUnsigned, hexp]
    simp only [Option.elim_none, Option.elim_some]
    rw [parseMantissa, hdot]
    simp only [Option.elim_none, Option.elim_some]
    rw [if_pos ⟨Or.inl (natDigits_ne_nil ip), allDigits_natDigits ip,
      allDigits_iff.mpr hfpd⟩]
    rw [natOfDigits_natDigits, natOfDigits_fracDigits8,
      fracDigits8_length (Nat.mod_lt m (by norm_num))]
    congr 1
    have hm : (ip : ℚ) * 100000000 + (fp : ℚ) = (m : ℚ) := by
      have h0 : ip * 100000000 + fp = m := by
        rw [hip, hfp]
        omega
      exact_mod_cast h0
    have key : ∀ a b : ℚ, a + b / 100000000 = (a * 100000000 + b) / 100000000 := by
      intro a b
      field_simp
    rw [show pow10 8 = (100000000 : ℚ) by norm_num [pow10], key, hm]
  rw [parseFloat, fmt8]
  show parseSigned ((if goRound (q * 100000000) < 0 then ['-'] else []) ++
    natDigits ((goRound (q * 100000000)).natAbs / 100000000) ++
    '.' :: fracDigits8 ((goRound (q * 100000000)).natAbs % 100000000)) = some (round8 q)
  set n : ℤ := goRound (q * 100000000) with hn
  have hcast : ((n.natAbs : ℚ)) = |(n : ℚ)| := by
    push_cast [Int.cast_natAbs]
    rfl
  by_cases hneg : n < 0
  · rw [if_pos hneg]
    show parseSigned ('-' :: (natDigits (n.natAbs / 100000000) ++
      '.' :: fracDigits8 (n.natAbs % 100000000))) = some (round8 q)
    rw [parseSigned, if_pos rfl, hmain]
    have : ((n.natAbs : ℚ)) = -(n : ℚ) := by
      rw [hcast, abs_of_neg]
      exact_mod_cast hneg
    simp only [Option.map_some']
    rw [round8, ← hn]
    congr 1
    rw [this]
    ring
  · rw [if_neg hneg]
    show parseSigned (natDigits (n.natAbs / 100000000) ++
      '.' :: fracDigits8 (n.natAbs % 100000000)) = some (round8 q)
    obtain ⟨c, cs, hcons⟩ := List.exists_cons_of_ne_nil (natDigits_ne_nil (n.natAbs / 100000000))
    have hcdig : c.isDigit = true := by
      apply allDigits_iff.mp (allDigits_natDigits (n.natAbs / 100000000))
      rw [hcons]; simp
    rw [hcons, List.cons_append, parseSigned_of_head_digit hcdig, ← List.cons_append, ← hcons,
      hmain]
    have : ((n.natAbs : ℚ)) = (n : ℚ) := by
      rw [hcast, abs_of_nonneg]
      exact_mod_cast not_lt.mp hneg
    rw [round8, ← hn, this]

theorem parseGoF_fmt8 (q : ℚ) : parseGoF (fmt8 q) = round8 q := by
  rw [parseGoF, parseFloat_fmt8]
  rfl

theorem Dec8_round8 (q : ℚ) : Dec8 (round8 q) := ⟨goRound (q * 100000000), rfl⟩

theorem round8_eq_self {x : ℚ} (h : Dec8 x) : round8 x = x := by
  obtain ⟨n, rfl⟩ := h
  rw [round8, goRound_eq_round]
  have h1 : ((n : ℚ)) / 100000000 * 100000000 = (n : ℚ) := by field_simp
  rw [h1, round_intCast]

theorem Dec8_sub {x y : ℚ} (hx : Dec8 x) (hy : Dec8 y) : Dec8 (x - y) := by
  obtain ⟨a, rfl⟩ := hx
  obtain ⟨b, rfl⟩ := hy
  exact ⟨a - b, by push_cast; ring⟩

theorem Dec8_add {x y : ℚ} (hx : Dec8 x) (hy : Dec8 y) : Dec8 (x + y) := by
  obtain ⟨a, rfl⟩ := hx
  obtain ⟨b, rfl⟩ := hy
  exact ⟨a + b, by push_cast; ring⟩

/-! ## Data model (`manager.go`, type declarations)

`PriceCondition`, `PlanStatus` and `ExecutionStatus` are Go string types;
they stay `String` here, with the constants the source declares. -/

/-- `PriceAbove PriceCondition = "above"` -/
def PriceAbove : String := "above"

/-- `PriceBelow PriceCondition = "below"` -/
def PriceBelow : String := "below"

/-- `PriceAt PriceCondition = "at"` -/
def PriceAt : String := "at"

/-- `StatusActive PlanStatus = "active"` -/
def StatusActive : String := "active"

/-- `StatusPaused PlanStatus = "paused"` -/
def StatusPaused : String := "paused"

/-- `StatusCompleted PlanStatus = "completed"` -/
def StatusCompleted : String := "completed"

/-- `StatusCancelled PlanStatus = "cancelled"` -/
def StatusCancelled : String := "cancelled"

/-- `ExecutionPending ExecutionStatus = "pending"` -/
def ExecutionPending : String := "pending"

/-- `ExecutionDeposited ExecutionStatus = "deposited"` -/
def ExecutionDeposited : String := "deposited"

/-- `ExecutionCompleted ExecutionStatus = "completed"` -/
def ExecutionCompleted : String := "completed"

/-- `ExecutionFailed ExecutionStatus = "failed"` -/
def ExecutionFailed : String := "failed"

/-- Go struct `Execution` (one trade execution within a plan).  Field
defaults are the Go zero values, matching Go composite literals that set
only some fields.  `timestamp`/`completionTime` are abstract instants. -/
structure Execution where
  id : String := ""
  timestamp : Nat := 0
  amount : String := ""
  triggerPrice : String := ""
  actualPrice : String := ""
  depositAddress : String := ""
  txHash : String := ""
  status : String := ""
  errorMessage : String := ""
  estimatedOutput : String := ""
  actualOutput : String := ""
  destinationTxHash : String := ""
  completionTime : Option Nat := none
  swapStatus : String := ""
deriving DecidableEq, Repr

/-- Go struct `TradingPlan`. -/
structure TradingPlan where
  name : String := ""
  description : String := ""
  created : Nat := 0
  lastUpdated : Nat := 0
  sourceToken : String := ""
  destToken : String := ""
  sourceChain : String := ""
  destChain : String := ""
  totalAmount : String := ""
  amountPerTrade : String := ""
  amountPerDay : String := ""
  triggerPrice : String := ""
  priceCondition : String := ""
  recipientAddr : String := ""
  refundAddr : String := ""
  status : String := ""
  totalExecuted : String := ""
  remainingAmount : String := ""
  executionHistory : List Execution := []
  executionCount : Nat := 0
  lastExecutionDate : String := ""
  todayExecuted : String := ""
deriving DecidableEq, Repr

/-! ## Plan Registry operations (`manager.go`)

Each Manager operation loads the plan from storage by name, mutates it and
stores it back; `.error` means the mutation is not persisted.  The storage
lookup itself is abstracted: operations act on the loaded plan. -/

/-- `validateAmount` (`manager.go`): empty, unparsable, and non-positive
amounts are rejected. -/
def validateAmount (amount : String) : Except String Unit :=
  if amount = "" then Except.error "amount cannot be empty"
  else
    (parseFloat amount).elim (Except.error "invalid amount format")
      (fun value =>
        if value ≤ 0 then Except.error "amount must be greater than 0"
        else Except.ok ())

/-- `(*TradingPlan).Validate` (type declarations in `manager.go`). -/
def TradingPlan.validate (tp : TradingPlan) : Except String Unit :=
  if tp.name = "" then Except.error "plan name is required"
  else if tp.sourceToken = "" then Except.error "source token is required"
  else if tp.destToken = "" then Except.error "destination token is required"
  else if tp.sourceChain = "" then Except.error "source chain is required"
  else if tp.destChain = "" then Except.error "destination chain is required"
  else if tp.totalAmount = "" ∨ tp.totalAmount = "0" then
    Except.error "total amount must be greater than 0"
  else if tp.amountPerTrade = "" ∨ tp.amountPerTrade = "0" then
    Except.error "amount per trade must be greater than 0"
  else if tp.amountPerDay = "" ∨ tp.amountPerDay = "0" then
    Except.error "amount per day must be greater than 0"
  else if tp.triggerPrice = "" ∨ tp.triggerPrice = "0" then
    Except.error "trigger price must be greater than 0"
  else if ¬(tp.priceCondition = PriceAbove ∨ tp.priceCondition = PriceBelow ∨
      tp.priceCondition = PriceAt) then
    Except.error "price condition must be above, below, or at"
  else if tp.recipientAddr = "" then Except.error "recipient address is required"
  else Except.ok ()

/-- Sequencing of a validation result, as Go's early `return` on error
does it (`fmt.Errorf("...: %w", err)` adds the prefix). -/
def bindErr (x : Except String Unit) (pre : String)
    (k : Unit → Except String TradingPlan) : Except String TradingPlan :=
  match x with
  | Except.error e => Except.error (pre ++ e)
  | Except.ok u => k u

/-- The composite literal `CreatePlan` builds (`manager.go:72-95`):
fresh plan in Paused status, nothing executed, remaining = total. -/
def mkPlan (name sourceToken destToken sourceChain destChain : String)
    (totalAmount amountPerTrade amountPerDay triggerPrice : String)
    (priceCondition recipientAddr refundAddr description : String)
    (now : Nat) : TradingPlan :=
  { name := name
    description := description
    created := now
    lastUpdated := now
    sourceToken := sourceToken
    destToken := destToken
    sourceChain := sourceChain
    destChain := destChain
    totalAmount := totalAmount
    amountPerTrade := amountPerTrade
    amountPerDay := amountPerDay
    triggerPrice := triggerPrice
    priceCondition := priceCondition
    recipientAddr := recipientAddr
    refundAddr := refundAddr
    status := StatusPaused
    totalExecuted := "0"
    remainingAmount := totalAmount
    executionHistory := []
    executionCount := 0
    lastExecutionDate := ""
    todayExecuted := "0" }

/-- `(*Manager).CreatePlan`.  `nameExists` models `m.storage.Exists(name)`
(re-checked identically by `storage.Create`); `now` models `time.Now()`. -/
def createPlan (nameExists : Bool)
    (name sourceToken destToken sourceChain destChain : String)
    (totalAmount amountPerTrade amountPerDay triggerPrice : String)
    (priceCondition recipientAddr refundAddr description : String)
    (now : Nat) : Except String TradingPlan :=
  if nameExists then Except.error ("plan " ++ name ++ " already exists")
  else
    bindErr (validateAmount totalAmount) "invalid total amount: " fun _ =>
    bindErr (validateAmount amountPerTrade) "invalid amount per trade: " fun _ =>
    bindErr (validateAmount amountPerDay) "invalid amount per day: " fun _ =>
    bindErr (validateAmount triggerPrice) "invalid trigger price: " fun _ =>
    if parseGoF amountPerTrade > parseGoF amountPerDay then
      Except.error "amount per trade cannot be greater than amount per day"
    else if parseGoF amountPerDay > parseGoF totalAmount then
      Except.error "amount per day cannot be greater than total amount"
    else
      bindErr (mkPlan name sourceToken destToken sourceChain destChain
          totalAmount amountPerTrade amountPerDay triggerPrice
          priceCondition recipientAddr refundAddr description now).validate ""
        fun _ => Except.ok (mkPlan name sourceToken destToken sourceChain destChain
          totalAmount amountPerTrade amountPerDay triggerPrice
          priceCondition recipientAddr refundAddr description now)

/-- `(*Manager).StartPlan`. -/
def startPlan (plan : TradingPlan) (now : Nat) : Except String TradingPlan :=
  if plan.status = StatusActive then
    Except.error ("plan " ++ plan.name ++ " is already active")
  else if plan.status = StatusCompleted then
    Except.error ("plan " ++ plan.name ++ " has already completed all trades")
  else Except.ok { plan with status := StatusActive, lastUpdated := now }

/-- `(*Manager).StopPlan`. -/
def stopPlan (plan : TradingPlan) (now : Nat) : Except String TradingPlan :=
  if plan.status ≠ StatusActive then
    Except.error ("plan " ++ plan.name ++ " is not active")
  else Except.ok { plan with status := StatusPaused, lastUpdated := now }

/-- `(*Manager).CancelPlan` (note: no check of the current status). -/
def cancelPlan (plan : TradingPlan) (now : Nat) : Except String TradingPlan :=
  Except.ok { plan with status := StatusCancelled, lastUpdated := now }

/-- `(*Manager).DeletePlan`: refuses to delete an Active plan. -/
def deletePlan (plan : TradingPlan) : Except String Unit :=
  if plan.status = StatusActive then
    Except.error ("cannot delete active plan " ++ plan.name ++ ", stop it first")
  else Except.ok ()

/-- `AddExecution` stage 1 (`manager.go:205-208`): append the execution
(with its assigned id and timestamp) and bump the count. -/
def appendExec (plan : TradingPlan) (e1 : Execution) : TradingPlan :=
  { plan with
    executionHistory := plan.executionHistory ++ [e1]
    executionCount := plan.executionCount + 1 }

/-- `AddExecution` stage 2 (`manager.go:211-217`): reset the daily counter
when the calendar day rolled over. -/
def dayReset (plan : TradingPlan) (today : String) : TradingPlan :=
  if plan.lastExecutionDate ≠ today then
    { plan with lastExecutionDate := today, todayExecuted := "0" }
  else plan

/-- `AddExecution` stage 3 (`manager.go:219-243`): for a deposited or
completed execution, apply the `%.8f` updates of `TotalExecuted`,
`RemainingAmount` and `TodayExecuted` and the completion clamp
`remaining <= 0.00000001`. -/
def applyAmounts (plan : TradingPlan) (e1 : Execution) : TradingPlan :=
  if e1.status = ExecutionCompleted ∨ e1.status = ExecutionDeposited then
    let executionAmount := parseGoF e1.amount
    let remaining := parseGoF plan.remainingAmount - executionAmount
    let p3a : TradingPlan := { plan with
      totalExecuted := fmt8 (parseGoF plan.totalExecuted + executionAmount)
      remainingAmount := fmt8 remaining
      todayExecuted := fmt8 (parseGoF plan.todayExecuted + executionAmount) }
    if remaining ≤ 1 / 100000000 then
      { p3a with status := StatusCompleted, remainingAmount := "0" }
    else p3a
  else plan

/-- `(*Manager).AddExecution`, the pure state transformer.  `genId` models
`uuid.New().String()`, `now` models `time.Now()`, `today` models
`time.Now().Format("2006-01-02")`. -/
def addExecutionP (plan : TradingPlan) (execution : Execution)
    (genId : String) (now : Nat) (today : String) : TradingPlan :=
  let e1 : Execution := { execution with id := genId, timestamp := now }
  { applyAmounts (dayReset (appendExec plan e1) today) e1 with lastUpdated := now }

/-- `(*Manager).AddExecution` as the Registry exposes it: it returns only
an error result (`manager.go:198`), the Go success path always reaching
`storage.Update`. -/
def addExecution (plan : TradingPlan) (execution : Execution)
    (genId : String) (now : Nat) (today : String) : Except String TradingPlan :=
  Except.ok (addExecutionP plan execution genId now today)

/-- Patch the first execution with the given id (Go's indexed loop with
`break`); `none` when no execution matches. -/
def updateFirstById (executionID : String) (f : Execution → Execution) :
    List Execution → Option (List Execution)
  | [] => none
  | e :: rest =>
    if e.id = executionID then some (f e :: rest)
    else (updateFirstById executionID f rest).map (fun t => e :: t)

/-- The in-place patch `(*Manager).UpdateExecutionStatus` applies to the
matched execution. -/
def patchStatus (status txHash errorMsg : String) (e : Execution) : Execution :=
  let e1 : Execution := { e with status := status }
  let e2 : Execution := if txHash ≠ "" then { e1 with txHash := txHash } else e1
  if errorMsg ≠ "" then { e2 with errorMessage := errorMsg } else e2

/-- `(*Manager).UpdateExecutionStatus`. -/
def updateExecutionStatus (plan : TradingPlan)
    (executionID status txHash errorMsg : String) (now : Nat) :
    Except String TradingPlan :=
  (updateFirstById executionID (patchStatus status txHash errorMsg)
      plan.executionHistory).elim
    (Except.error ("execution " ++ executionID ++ " not found in plan " ++ plan.name))
    (fun h => Except.ok { plan with executionHistory := h, lastUpdated := now })

/-- The in-place patch `(*Manager).UpdateExecutionWithSwapStatus` applies
to the matched execution: record the settlement string, optionally the
actual output and destination transaction, and map
`SUCCESS`/`COMPLETED` to execution status Completed (with completion
time) and `FAILED`/`REFUNDED` to Failed. -/
def patchSwap (swapStatus actualOutput destTxHash : String) (now : Nat)
    (e : Execution) : Execution :=
  let e1 : Execution := { e with swapStatus := swapStatus }
  let e2 : Execution :=
    if actualOutput ≠ "" then { e1 with actualOutput := actualOutput } else e1
  let e3 : Execution :=
    if destTxHash ≠ "" then { e2 with destinationTxHash := destTxHash } else e2
  if swapStatus = "SUCCESS" ∨ swapStatus = "COMPLETED" then
    { e3 with status := ExecutionCompleted, completionTime := some now }
  else if swapStatus = "FAILED" ∨ swapStatus = "REFUNDED" then
    { e3 with status := ExecutionFailed }
  else e3

/-- `(*Manager).UpdateExecutionWithSwapStatus`. -/
def updateExecutionWithSwapStatus (plan : TradingPlan)
    (executionID swapStatus actualOutput destTxHash : String) (now : Nat) :
    Except String TradingPlan :=
  (updateFirstById executionID (patchSwap swapStatus actualOutput destTxHash now)
      plan.executionHistory).elim
    (Except.error ("execution " ++ executionID ++ " not found in plan " ++ plan.name))
    (fun h => Except.ok { plan with executionHistory := h, lastUpdated := now })

/-- `(*TradingPlan).IsActive`. -/
def TradingPlan.isActive (tp : TradingPlan) : Bool := tp.status = StatusActive

/-- `(*TradingPlan).IsCompleted`. -/
def TradingPlan.isCompleted (tp : TradingPlan) : Bool := tp.status = StatusCompleted

/-- `(*TradingPlan).CanExecute`: Active and the stored remaining-amount
string is not the literal `"0"`. -/
def TradingPlan.canExecute (tp : TradingPlan) : Bool :=
  tp.status = StatusActive ∧ tp.remainingAmount ≠ "0"

/-- `(*TradingPlan).CanExecuteToday`. -/
def TradingPlan.canExecuteToday (tp : TradingPlan) (today : String) : Bool :=
  if ¬tp.canExecute then false
  else if tp.lastExecutionDate ≠ today then true
  else decide (parseGoF tp.todayExecuted < parseGoF tp.amountPerDay)

/-- `(*TradingPlan).GetRemainingDailyAmount`. -/
def TradingPlan.getRemainingDailyAmount (tp : TradingPlan) (today : String) : String :=
  if tp.lastExecutionDate ≠ today then tp.amountPerDay
  else
    let remaining := parseGoF tp.amountPerDay - parseGoF tp.todayExecuted
    if remaining < 0 then "0" else fmt8 remaining

/-! ## Pricer (`pricer.go`)

The Quote Service (1Click API client) is a consumed capability; it is
passed in as an oracle `getQuote : SwapRequest → Except String QuoteResp`. -/

/-- `types.SwapRequest` (the fields the Pricer/Executor populate). -/
structure SwapRequest where
  amount : String := ""
  sourceToken : String := ""
  destToken : String := ""
  sourceChain : String := ""
  destChain : String := ""
  recipientAddr : String := ""
  refundAddr : String := ""
deriving DecidableEq, Repr

/-- The quote fields the Pricer/Executor read
(`quote.GetQuote()` projections). -/
structure QuoteResp where
  depositAddress : String := ""
  amountInFormatted : String := ""
  amountOutFormatted : String := ""
deriving DecidableEq, Repr

/-- `plan.PriceInfo`. -/
structure PriceInfo where
  price : String := ""
  priceFloat : ℚ := 0
  sourceToken : String := ""
  destToken : String := ""
  sourceChain : String := ""
  destChain : String := ""
deriving DecidableEq, Repr

/-- `(*Pricer).GetPrice`: probe quote of 10% of `amount_per_trade`
(floor 0.01), price = quoted-out / quoted-in, failing on quote errors,
unparsable amounts and a zero input amount. -/
def getPrice (plan : TradingPlan)
    (getQuote : SwapRequest → Except String QuoteResp) : Except String PriceInfo :=
  (parseFloat plan.amountPerTrade).elim
    (Except.error "invalid amount per trade")
    (fun testAmountFloat0 =>
      let testAmountFloat1 := testAmountFloat0 * (1 / 10)
      let testAmountFloat :=
        if testAmountFloat1 < 1 / 100 then (1 / 100 : ℚ) else testAmountFloat1
      let testAmount := fmt8 testAmountFloat
      let swapReq : SwapRequest :=
        { amount := testAmount
          sourceToken := plan.sourceToken
          destToken := plan.destToken
          sourceChain := plan.sourceChain
          destChain := plan.destChain
          recipientAddr := plan.recipientAddr
          refundAddr := plan.refundAddr }
      match getQuote swapReq with
      | Except.error e => Except.error ("failed to get quote: " ++ e)
      | Except.ok quote =>
        (parseFloat quote.amountInFormatted).elim
          (Except.error "failed to parse amount in")
          (fun amountInFloat =>
            (parseFloat quote.amountOutFormatted).elim
              (Except.error "failed to parse amount out")
              (fun amountOutFloat =>
                if amountInFloat = 0 then Except.error "invalid amount in: 0"
                else
                  let price := amountOutFloat / amountInFloat
                  Except.ok
                    { price := fmt8 price
                      priceFloat := price
                      sourceToken := plan.sourceToken
                      destToken := plan.destToken
                      sourceChain := plan.sourceChain
                      destChain := plan.destChain })))

/-- `(*Pricer).CheckTriggerCondition`. -/
def checkTriggerCondition (plan : TradingPlan) (currentPrice : PriceInfo) :
    Except String Bool :=
  (parseFloat plan.triggerPrice).elim
    (Except.error "invalid trigger price")
    (fun triggerPrice =>
      if plan.priceCondition = PriceAbove then
        Except.ok (decide (currentPrice.priceFloat ≥ triggerPrice))
      else if plan.priceCondition = PriceBelow then
        Except.ok (decide (currentPrice.priceFloat ≤ triggerPrice))
      else if plan.priceCondition = PriceAt then
        Except.ok (decide (|currentPrice.priceFloat - triggerPrice| ≤
          triggerPrice * (5 / 1000)))
      else Except.error ("unknown price condition: " ++ plan.priceCondition))

/-- `(*Pricer).ShouldExecute`.  Go returns `(bool, *PriceInfo, error)`;
the error cases collapse to `.error`, and `(triggered, price)` is the
success value. -/
def shouldExecute (plan : TradingPlan)
    (getQuote : SwapRequest → Except String QuoteResp) :
    Except String (Bool × Option PriceInfo) :=
  if ¬plan.canExecute then Except.ok (false, none)
  else
    match getPrice plan getQuote with
    | Except.error e => Except.error e
    | Except.ok currentPrice =>
      match checkTriggerCondition plan currentPrice with
      | Except.error e => Except.error e
      | Except.ok triggered => Except.ok (triggered, some currentPrice)

/-! ## Executor trade dispatch (`part_005`)

`executeTrade` / `handleAutoDeposit` are modelled with the Quote Service
and the Depositor as oracles.  The outcome record carries, besides the
final plan, exactly the data the executor passes to its collaborators:
the computed trade amount, the firm-quote request, the execution record
given to `AddExecution`, and the `(chain, address, amount)` triple of the
`SendDeposit` call when one is made.

`part_005:283` binds an execution id from the `AddExecution` result
(`executionID, err := e.manager.AddExecution(...)`); the Registry's
`AddExecution` (`manager.go:198`) returns only an error.  The id the
caller needs is the one `AddExecution` generates internally, so the model
uses the generated `genId` as that id. -/

/-- `(*Executor).handleAutoDeposit`: result is the plan after the
execution-status patch, the `SendDeposit` call made (if any), and the Go
error result.  Note the amount sent is `plan.AmountPerTrade`
(`part_005:316`).  Failed Registry patches are ignored by the source
(`e.manager.UpdateExecutionStatus(...)` without error check). -/
def handleAutoDeposit (plan : TradingPlan) (executionID depositAddress : String)
    (enabledForChain : String → Bool)
    (sendDeposit : String → String → String → Except String String)
    (now : Nat) :
    TradingPlan × Option (String × String × String) × Except String String :=
  if ¬enabledForChain plan.sourceChain then
    (plan, none, Except.error ("auto-deposit not enabled for chain: " ++ plan.sourceChain))
  else
    match sendDeposit plan.sourceChain depositAddress plan.amountPerTrade with
    | Except.error e =>
      ((updateExecutionStatus plan executionID ExecutionFailed "" e now).toOption.getD plan,
        some (plan.sourceChain, depositAddress, plan.amountPerTrade),
        Except.error e)
    | Except.ok txid =>
      ((updateExecutionStatus plan executionID ExecutionDeposited txid "" now).toOption.getD plan,
        some (plan.sourceChain, depositAddress, plan.amountPerTrade),
        Except.ok txid)

/-- Trace of one `executeTrade` dispatch. -/
structure TradeOutcome where
  executeAmountStr : String
  quoteRequest : SwapRequest
  recordedExecution : Execution
  executionID : String
  depositCall : Option (String × String × String)
  finalPlan : TradingPlan
deriving DecidableEq, Repr

/-- `(*Executor).executeTrade`: compute the trade size as the minimum of
`amount_per_trade`, the remaining daily amount and the remaining total
amount; request a firm quote; record a Pending execution; then, when
auto-deposit is configured, run `handleAutoDeposit` (whose failure is
logged but not propagated). -/
def executeTrade (plan : TradingPlan) (priceInfo : PriceInfo) (today : String)
    (getQuote : SwapRequest → Except String QuoteResp)
    (autoDepositEnabled : Bool)
    (enabledForChain : String → Bool)
    (sendDeposit : String → String → String → Except String String)
    (genId : String) (now : Nat) : Except String TradeOutcome :=
  let amountPerTrade := parseGoF plan.amountPerTrade
  let remainingDaily := parseGoF (plan.getRemainingDailyAmount today)
  let remainingTotal := parseGoF plan.remainingAmount
  let executeAmount0 := amountPerTrade
  let executeAmount1 := if remainingDaily < executeAmount0 then remainingDaily else executeAmount0
  let executeAmount := if remainingTotal < executeAmount1 then remainingTotal else executeAmount1
  let executeAmountStr := fmt8 executeAmount
  let swapReq : SwapRequest :=
    { amount := executeAmountStr
      sourceToken := plan.sourceToken
      destToken := plan.destToken
      sourceChain := plan.sourceChain
      destChain := plan.destChain
      recipientAddr := plan.recipientAddr
      refundAddr := plan.refundAddr }
  match getQuote swapReq with
  | Except.error e => Except.error ("failed to get quote: " ++ e)
  | Except.ok quote =>
    let execution : Execution :=
      { amount := executeAmountStr
        triggerPrice := priceInfo.price
        actualPrice := priceInfo.price
        depositAddress := quote.depositAddress
        status := ExecutionPending
        estimatedOutput := quote.amountOutFormatted }
    match addExecution plan execution genId now today with
    | Except.error e => Except.error ("failed to record execution: " ++ e)
    | Except.ok plan1 =>
      if autoDepositEnabled then
        let r := handleAutoDeposit plan1 genId quote.depositAddress
          enabledForChain sendDeposit now
        Except.ok
          { executeAmountStr := executeAmountStr
            quoteRequest := swapReq
            recordedExecution := execution
            executionID := genId
            depositCall := r.2.1
            finalPlan := r.1 }
      else
        Except.ok
          { executeAmountStr := executeAmountStr
            quoteRequest := swapReq
            recordedExecution := execution
            executionID := genId
            depositCall := none
            finalPlan := plan1 }

/-- A concrete Active plan for exercising one Scheduler dispatch: per-trade
5, per-day 5, already 3 executed today, remaining total 10 — the computed
trade size is `min(5, 2, 10) = 2`. -/
def C3plan : TradingPlan :=
  { name := "p1", sourceToken := "BTC", destToken := "USDC",
    sourceChain := "bitcoin", destChain := "ethereum",
    totalAmount := "10", amountPerTrade := "5", amountPerDay := "5",
    triggerPrice := "3000", priceCondition := PriceBelow,
    recipientAddr := "nearaddr", refundAddr := "refundaddr",
    status := StatusActive, totalExecuted := "0", remainingAmount := "10",
    lastExecutionDate := "2026-01-01", todayExecuted := "3" }

/-- A fixed firm-quote response used with `C3plan`. -/
def C3quoteResp : QuoteResp :=
  { depositAddress := "dep", amountInFormatted := "2", amountOutFormatted := "1" }

/-- A Quote Service oracle that always returns `C3quoteResp`. -/
def C3quote : SwapRequest → Except String QuoteResp := fun _ => Except.ok C3quoteResp

/-! ## The settled-or-dispatched amount sum (spec §3)

The spec's invariant compares `remaining_amount` with `total_amount`
minus the amounts of executions whose current status is deposited or
completed. -/

/-- The amount an execution contributes while its status is deposited or
completed; `0` otherwise. -/
def depCompAmt (e : Execution) : ℚ :=
  if e.status = ExecutionDeposited ∨ e.status = ExecutionCompleted then
    parseGoF e.amount
  else 0

/-- Sum of the amounts of the deposited-or-completed executions. -/
def sumDepComp (h : List Execution) : ℚ := (h.map depCompAmt).sum

/-- States reachable from a plan by `AddExecution` calls alone, where
every deposited/completed execution carries a positive eight-decimal
amount no larger than the plan's remaining amount (the amounts the
Scheduler produces: `%.8f`-formatted minima bounded by
`remaining_amount`). -/
inductive AddReach : TradingPlan → TradingPlan → Prop
  | refl (p : TradingPlan) : AddReach p p
  | step (p q : TradingPlan) (e : Execution) (genId : String) (now : Nat)
      (today : String) :
      AddReach p q →
      (e.status = ExecutionDeposited ∨ e.status = ExecutionCompleted →
        Dec8 (parseGoF e.amount) ∧ 0 < parseGoF e.amount ∧
        parseGoF e.amount ≤ parseGoF q.remainingAmount) →
      AddReach p (addExecutionP q e genId now today)

/-- The amount invariant `AddExecution` maintains: the stored remaining
amount is an eight-decimal value that equals `total − Σ(dep∨comp)`
exactly, except after the completion clamp, where the string is `"0"`
and the exact value lies in `[0, 1e-8]`. -/
def AmtInv (p : TradingPlan) : Prop :=
  Dec8 (parseGoF p.remainingAmount) ∧
  (parseGoF p.remainingAmount =
      parseGoF p.totalAmount - sumDepComp p.executionHistory
   ∨ (p.remainingAmount = "0" ∧
      0 ≤ parseGoF p.totalAmount - sumDepComp p.executionHistory ∧
      parseGoF p.totalAmount - sumDepComp p.executionHistory ≤ 1 / 100000000))

/-! ## Helper lemmas on the operations -/

theorem updateFirstById_of_not_mem {executionID : String} {f : Execution → Execution} :
    ∀ {h : List Execution}, (∀ e ∈ h, e.id ≠ executionID) →
      updateFirstById executionID f h = none := by
  intro h
  induction h with
  | nil => intro _; rfl
  | cons e rest ih =>
    intro hmem
    rw [updateFirstById]
    rw [if_neg (hmem e (by simp)), ih (fun x hx => hmem x (by simp [hx]))]
    rfl

theorem updateFirstById_found {executionID : String} {f : Execution → Execution}
    {e : Execution} (pre post : List Execution)
    (hpre : ∀ x ∈ pre, x.id ≠ executionID) (he : e.id = executionID) :
    updateFirstById executionID f (pre ++ e :: post) = some (pre ++ f e :: post) := by
  induction pre with
  | nil =>
    simp only [List.nil_append]
    rw [updateFirstById, if_pos he]
  | cons x rest ih =>
    rw [List.cons_append, updateFirstById,
      if_neg (hpre x (by simp)), ih (fun y hy => hpre y (by simp [hy]))]
    rfl

theorem canExecute_iff (p : TradingPlan) :
    p.canExecute = true ↔ (p.status = StatusActive ∧ p.remainingAmount ≠ "0") := by
  simp [TradingPlan.canExecute]

theorem appendExec_status (p : TradingPlan) (e : Execution) :
    (appendExec p e).status = p.status := rfl

theorem appendExec_totalAmount (p : TradingPlan) (e : Execution) :
    (appendExec p e).totalAmount = p.totalAmount := rfl

theorem appendExec_totalExecuted (p : TradingPlan) (e : Execution) :
    (appendExec p e).totalExecuted = p.totalExecuted := rfl

theorem appendExec_remainingAmount (p : TradingPlan) (e : Execution) :
    (appendExec p e).remainingAmount = p.remainingAmount := rfl

theorem appendExec_executionHistory (p : TradingPlan) (e : Execution) :
    (appendExec p e).executionHistory = p.executionHistory ++ [e] := rfl

theorem dayReset_status (p : TradingPlan) (today : String) :
    (dayReset p today).status = p.status := by
  rw [dayReset]; split_ifs <;> rfl

theorem dayReset_totalAmount (p : TradingPlan) (today : String) :
    (dayReset p today).totalAmount = p.totalAmount := by
  rw [dayReset]; split_ifs <;> rfl

theorem dayReset_totalExecuted (p : TradingPlan) (today : String) :
    (dayReset p today).totalExecuted = p.totalExecuted := by
  rw [dayReset]; split_ifs <;> rfl

theorem dayReset_remainingAmount (p : TradingPlan) (today : String) :
    (dayReset p today).remainingAmount = p.remainingAmount := by
  rw [dayReset]; split_ifs <;> rfl

theorem dayReset_executionHistory (p : TradingPlan) (today : String) :
    (dayReset p today).executionHistory = p.executionHistory := by
  rw [dayReset]; split_ifs <;> rfl

theorem bindErr_error (e pre : String) (k : Unit → Except String TradingPlan) :
    bindErr (Except.error e) pre k = Except.error (pre ++ e) := rfl

theorem bindErr_ok (pre : String) (k : Unit → Except String TradingPlan) :
    bindErr (Except.ok ()) pre k = k () := rfl

theorem bindErr_ok_ne_error (x : Except String Unit) (pre : String)
    (k : Unit → Except String TradingPlan) {q : TradingPlan}
    (h : bindErr x pre k = Except.ok q) : x = Except.ok () ∧ k () = Except.ok q := by
  cases x with
  | error e => exact absurd h (by rw [bindErr_error]; exact fun hc => Except.noConfusion hc)
  | ok u => cases u; exact ⟨rfl, h⟩

theorem applyAmounts_status_cases (p : TradingPlan) (e : Execution) :
    (applyAmounts p e).status = p.status ∨ (applyAmounts p e).status = StatusCompleted := by
  simp only [applyAmounts]
  split_ifs with h1 h2
  · exact Or.inr rfl
  · exact Or.inl rfl
  · exact Or.inl rfl

theorem applyAmounts_totalAmount (p : TradingPlan) (e : Execution) :
    (applyAmounts p e).totalAmount = p.totalAmount := by
  simp only [applyAmounts]
  split_ifs <;> rfl

theorem addExecutionP_totalAmount (p : TradingPlan) (e : Execution)
    (genId : String) (now : Nat) (today : String) :
    (addExecutionP p e genId now today).totalAmount = p.totalAmount := by
  rw [addExecutionP]
  show (applyAmounts (dayReset (appendExec p _) today) _).totalAmount = p.totalAmount
  rw [applyAmounts_totalAmount, dayReset_totalAmount, appendExec_totalAmount]

theorem addExecutionP_status_cases (p : TradingPlan) (e : Execution)
    (genId : String) (now : Nat) (today : String) :
    (addExecutionP p e genId now today).status = p.status ∨
    (addExecutionP p e genId now today).status = StatusCompleted := by
  rw [addExecutionP]
  show (applyAmounts (dayReset (appendExec p _) today) _).status = p.status ∨ _ = StatusCompleted
  rcases applyAmounts_status_cases (dayReset (appendExec p _) today) _ with h | h
  · rw [h, dayReset_status, appendExec_status]
    exact Or.inl rfl
  · rw [h]
    exact Or.inr rfl

theorem applyAmounts_executionHistory (p : TradingPlan) (e : Execution) :
    (applyAmounts p e).executionHistory = p.executionHistory := by
  simp only [applyAmounts]
  split_ifs <;> rfl

theorem addExecutionP_executionHistory (p : TradingPlan) (e : Execution)
    (genId : String) (now : Nat) (today : String) :
    (addExecutionP p e genId now today).executionHistory =
      p.executionHistory ++ [{ e with id := genId, timestamp := now }] := by
  rw [addExecutionP]
  show (applyAmounts (dayReset (appendExec p _) today) _).executionHistory = _
  rw [applyAmounts_executionHistory, dayReset_executionHistory,
    appendExec_executionHistory]

theorem appendExec_sourceChain (p : TradingPlan) (e : Execution) :
    (appendExec p e).sourceChain = p.sourceChain := rfl

theorem appendExec_amountPerTrade (p : TradingPlan) (e : Execution) :
    (appendExec p e).amountPerTrade = p.amountPerTrade := rfl

theorem dayReset_sourceChain (p : TradingPlan) (today : String) :
    (dayReset p today).sourceChain = p.sourceChain := by
  rw [dayReset]; split_ifs <;> rfl

theorem dayReset_amountPerTrade (p : TradingPlan) (today : String) :
    (dayReset p today).amountPerTrade = p.amountPerTrade := by
  rw [dayReset]; split_ifs <;> rfl

theorem applyAmounts_sourceChain (p : TradingPlan) (e : Execution) :
    (applyAmounts p e).sourceChain = p.sourceChain := by
  simp only [applyAmounts]
  split_ifs <;> rfl

theorem applyAmounts_amountPerTrade (p : TradingPlan) (e : Execution) :
    (applyAmounts p e).amountPerTrade = p.amountPerTrade := by
  simp only [applyAmounts]
  split_ifs <;> rfl

theorem addExecutionP_sourceChain (p : TradingPlan) (e : Execution)
    (genId : String) (now : Nat) (today : String) :
    (addExecutionP p e genId now today).sourceChain = p.sourceChain := by
  rw [addExecutionP]
  show (applyAmounts (dayReset (appendExec p _) today) _).sourceChain = p.sourceChain
  rw [applyAmounts_sourceChain, dayReset_sourceChain, appendExec_sourceChain]

theorem addExecutionP_amountPerTrade (p : TradingPlan) (e : Execution)
    (genId : String) (now : Nat) (today : String) :
    (addExecutionP p e genId now today).amountPerTrade = p.amountPerTrade := by
  rw [addExecutionP]
  show (applyAmounts (dayReset (appendExec p _) today) _).amountPerTrade =
    p.amountPerTrade
  rw [applyAmounts_amountPerTrade, dayReset_amountPerTrade, appendExec_amountPerTrade]

theorem sumDepComp_nil : sumDepComp [] = 0 := rfl

theorem sumDepComp_append (h : List Execution) (e : Execution) :
    sumDepComp (h ++ [e]) = sumDepComp h + depCompAmt e := by
  simp [sumDepComp]

theorem applyAmounts_of_not_depComp {e : Execution} (p : TradingPlan)
    (h : ¬(e.status = ExecutionCompleted ∨ e.status = ExecutionDeposited)) :
    applyAmounts p e = p := by
  rw [applyAmounts, if_neg h]

/-- The completion-clamp branch of `AddExecution`: deposited/completed
execution whose amount brings the remaining value to `≤ 1e-8`. -/
theorem applyAmounts_clamp {e : Execution} (p : TradingPlan)
    (h : e.status = ExecutionCompleted ∨ e.status = ExecutionDeposited)
    (hr : parseGoF p.remainingAmount - parseGoF e.amount ≤ 1 / 100000000) :
    applyAmounts p e = { p with
      totalExecuted := fmt8 (parseGoF p.totalExecuted + parseGoF e.amount)
      remainingAmount := "0"
      todayExecuted := fmt8 (parseGoF p.todayExecuted + parseGoF e.amount)
      status := StatusCompleted } := by
  rw [applyAmounts, if_pos h]
  simp only [if_pos hr]

/-- The ordinary branch of `AddExecution`: deposited/completed execution
leaving more than `1e-8` remaining. -/
theorem applyAmounts_no_clamp {e : Execution} (p : TradingPlan)
    (h : e.status = ExecutionCompleted ∨ e.status = ExecutionDeposited)
    (hr : ¬(parseGoF p.remainingAmount - parseGoF e.amount ≤ 1 / 100000000)) :
    applyAmounts p e = { p with
      totalExecuted := fmt8 (parseGoF p.totalExecuted + parseGoF e.amount)
      remainingAmount := fmt8 (parseGoF p.remainingAmount - parseGoF e.amount)
      todayExecuted := fmt8 (parseGoF p.todayExecuted + parseGoF e.amount) } := by
  rw [applyAmounts, if_pos h]
  simp only [if_neg hr]

/-- The stored fields after an `AddExecution` that neither rejects nor
clamps: a deposited/completed execution leaving more than `1e-8`. -/
theorem addExecutionP_fields_no_clamp (p : TradingPlan) (e : Execution)
    (genId : String) (now : Nat) (today : String)
    (hdep : e.status = ExecutionCompleted ∨ e.status = ExecutionDeposited)
    (hcl : ¬(parseGoF p.remainingAmount - parseGoF e.amount ≤ 1 / 100000000)) :
    (addExecutionP p e genId now today).remainingAmount =
      fmt8 (parseGoF p.remainingAmount - parseGoF e.amount) ∧
    (addExecutionP p e genId now today).totalAmount = p.totalAmount ∧
    (addExecutionP p e genId now today).executionHistory =
      p.executionHistory ++ [{ e with id := genId, timestamp := now }] := by
  set e1 : Execution := { e with id := genId, timestamp := now } with he1
  set X : TradingPlan := dayReset (appendExec p e1) today with hX
  have hstep : addExecutionP p e genId now today =
      { applyAmounts X e1 with lastUpdated := now } := rfl
  have hXr : X.remainingAmount = p.remainingAmount := by
    rw [hX, dayReset_remainingAmount, appendExec_remainingAmount]
  have hdep' : e1.status = ExecutionCompleted ∨ e1.status = ExecutionDeposited := hdep
  have hcl' : ¬(parseGoF X.remainingAmount - parseGoF e1.amount ≤ 1 / 100000000) := by
    rw [hXr]
    exact hcl
  refine ⟨?_, ?_, ?_⟩
  · rw [hstep, applyAmounts_no_clamp X hdep' hcl']
    show fmt8 (parseGoF X.remainingAmount - parseGoF e1.amount) =
      fmt8 (parseGoF p.remainingAmount - parseGoF e.amount)
    rw [hXr]
  · rw [hstep]
    show (applyAmounts X e1).totalAmount = p.totalAmount
    rw [applyAmounts_totalAmount, hX, dayReset_totalAmount, appendExec_totalAmount]
  · rw [hstep]
    show (applyAmounts X e1).executionHistory = p.executionHistory ++ [e1]
    rw [applyAmounts_executionHistory, hX, dayReset_executionHistory,
      appendExec_executionHistory]


/-! ### Concrete evaluations used by witnesses and counterexamples -/

theorem parseGoF_zero : parseGoF "0" = 0 := by
  simp +decide [parseGoF, parseFloat, parseSigned, parseUnsigned, parseMantissa,
    breakAtExp, breakAtDot, natOfDigits, digVal, allDigits, pow10, String.toList]

theorem parseGoF_two : parseGoF "2" = 2 := by
  simp +decide [parseGoF, parseFloat, parseSigned, parseUnsigned, parseMantissa,
    breakAtExp, breakAtDot, natOfDigits, digVal, allDigits, pow10, String.toList]

theorem parseGoF_ten : parseGoF "10" = 10 := by
  simp +decide [parseGoF, parseFloat, parseSigned, parseUnsigned, parseMantissa,
    breakAtExp, breakAtDot, natOfDigits, digVal, allDigits, pow10, String.toList]

theorem parseGoF_twenty : parseGoF "20" = 20 := by
  simp +decide [parseGoF, parseFloat, parseSigned, parseUnsigned, parseMantissa,
    breakAtExp, breakAtDot, natOfDigits, digVal, allDigits, pow10, String.toList]

theorem fmt8_twenty : fmt8 (20 : ℚ) = "20.00000000" := by
  have h : goRound (20 * 100000000) = 2000000000 := by
    rw [goRound_eq_round, round_eq]
    norm_num
  simp +decide [fmt8, h, natDigits, natDigitsAux, fracDigits8, Nat.digitChar]

theorem parseFloat_lit_zero : parseFloat "0" = some 0 := by
  simp +decide [parseFloat, parseSigned, parseUnsigned, parseMantissa,
    breakAtExp, breakAtDot, natOfDigits, digVal, allDigits, pow10, String.toList]

theorem parseFloat_lit_one : parseFloat "1" = some 1 := by
  simp +decide [parseFloat, parseSigned, parseUnsigned, parseMantissa,
    breakAtExp, breakAtDot, natOfDigits, digVal, allDigits, pow10, String.toList]

theorem parseFloat_lit_two : parseFloat "2" = some 2 := by
  simp +decide [parseFloat, parseSigned, parseUnsigned, parseMantissa,
    breakAtExp, breakAtDot, natOfDigits, digVal, allDigits, pow10, String.toList]

theorem parseFloat_lit_ten : parseFloat "10" = some 10 := by
  simp +decide [parseFloat, parseSigned, parseUnsigned, parseMantissa,
    breakAtExp, breakAtDot, natOfDigits, digVal, allDigits, pow10, String.toList]

theorem parseFloat_lit_3000 : parseFloat "3000" = some 3000 := by
  simp +decide [parseFloat, parseSigned, parseUnsigned, parseMantissa,
    breakAtExp, breakAtDot, natOfDigits, digVal, allDigits, pow10, String.toList]

theorem parseGoF_one : parseGoF "1" = 1 := by
  rw [parseGoF, parseFloat_lit_one]
  rfl

theorem parseGoF_five : parseGoF "5" = 5 := by
  simp +decide [parseGoF, parseFloat, parseSigned, parseUnsigned, parseMantissa,
    breakAtExp, breakAtDot, natOfDigits, digVal, allDigits, pow10, String.toList]

theorem parseGoF_three : parseGoF "3" = 3 := by
  simp +decide [parseGoF, parseFloat, parseSigned, parseUnsigned, parseMantissa,
    breakAtExp, breakAtDot, natOfDigits, digVal, allDigits, pow10, String.toList]

theorem fmt8_two : fmt8 (2 : ℚ) = "2.00000000" := by
  have h : goRound (2 * 100000000) = 200000000 := by
    rw [goRound_eq_round, round_eq]
    norm_num
  simp +decide [fmt8, h, natDigits, natDigitsAux, fracDigits8, Nat.digitChar]

/-- One `AddExecution` call preserves the amount invariant, provided a
deposited/completed execution carries a positive eight-decimal amount
within the remaining amount. -/
theorem AmtInv_addExecutionP (q : TradingPlan) (e : Execution) (genId : String)
    (now : Nat) (today : String)
    (hcond : e.status = ExecutionDeposited ∨ e.status = ExecutionCompleted →
      Dec8 (parseGoF e.amount) ∧ 0 < parseGoF e.amount ∧
      parseGoF e.amount ≤ parseGoF q.remainingAmount)
    (hinv : AmtInv q) : AmtInv (addExecutionP q e genId now today) := by
  set e1 : Execution := { e with id := genId, timestamp := now } with he1
  set X : TradingPlan := dayReset (appendExec q e1) today with hX
  have hstep : addExecutionP q e genId now today =
      { applyAmounts X e1 with lastUpdated := now } := rfl
  have hXr : X.remainingAmount = q.remainingAmount := by
    rw [hX, dayReset_remainingAmount, appendExec_remainingAmount]
  have hXta : X.totalAmount = q.totalAmount := by
    rw [hX, dayReset_totalAmount, appendExec_totalAmount]
  have hXh : X.executionHistory = q.executionHistory ++ [e1] := by
    rw [hX, dayReset_executionHistory, appendExec_executionHistory]
  have hea : parseGoF e1.amount = parseGoF e.amount := rfl
  obtain ⟨hd8r, hcase⟩ := hinv
  by_cases hdep : e1.status = ExecutionCompleted ∨ e1.status = ExecutionDeposited
  · have hds : e.status = ExecutionDeposited ∨ e.status = ExecutionCompleted := by
      rcases hdep with h | h
      · exact Or.inr h
      · exact Or.inl h
    obtain ⟨hd8a, hpos, hle⟩ := hcond hds
    have hdca : depCompAmt e1 = parseGoF e.amount := by
      rw [depCompAmt,
        if_pos (show e1.status = ExecutionDeposited ∨ e1.status = ExecutionCompleted
          from hds)]
    rcases hcase with hr | ⟨hz, _, _⟩
    · by_cases hcl : parseGoF X.remainingAmount - parseGoF e1.amount ≤ 1 / 100000000
      · rw [hstep, applyAmounts_clamp X hdep hcl]
        refine ⟨?_, Or.inr ⟨rfl, ?_, ?_⟩⟩
        · show Dec8 (parseGoF "0")
          rw [parseGoF_zero]
          exact ⟨0, by norm_num⟩
        · show 0 ≤ parseGoF X.totalAmount - sumDepComp X.executionHistory
          rw [hXta, hXh, sumDepComp_append, hdca]
          have : parseGoF q.totalAmount - (sumDepComp q.executionHistory +
              parseGoF e.amount) = parseGoF q.remainingAmount - parseGoF e.amount := by
            rw [hr]
            ring
          rw [this]
          linarith
        · show parseGoF X.totalAmount - sumDepComp X.executionHistory ≤ 1 / 100000000
          rw [hXr, hea] at hcl
          rw [hXta, hXh, sumDepComp_append, hdca]
          have : parseGoF q.totalAmount - (sumDepComp q.executionHistory +
              parseGoF e.amount) = parseGoF q.remainingAmount - parseGoF e.amount := by
            rw [hr]
            ring
          rw [this]
          exact hcl
      · rw [hstep, applyAmounts_no_clamp X hdep hcl]
        refine ⟨?_, Or.inl ?_⟩
        · show Dec8 (parseGoF (fmt8 (parseGoF X.remainingAmount - parseGoF e1.amount)))
          rw [parseGoF_fmt8]
          exact Dec8_round8 _
        · show parseGoF (fmt8 (parseGoF X.remainingAmount - parseGoF e1.amount)) =
            parseGoF X.totalAmount - sumDepComp X.executionHistory
          have hd8r' : Dec8 (parseGoF X.remainingAmount) := by
            rw [hXr]
            exact hd8r
          rw [parseGoF_fmt8, round8_eq_self (Dec8_sub hd8r' hd8a), hXr, hea,
            hXta, hXh, sumDepComp_append, hdca, hr]
          ring
    · exfalso
      rw [hz, parseGoF_zero] at hle
      linarith
  · rw [hstep, applyAmounts_of_not_depComp X hdep]
    have hdca0 : depCompAmt e1 = 0 := by
      rw [depCompAmt, if_neg]
      intro h
      apply hdep
      rcases h with h | h
      · exact Or.inr h
      · exact Or.inl h
    refine ⟨?_, ?_⟩
    · show Dec8 (parseGoF X.remainingAmount)
      rw [hXr]
      exact hd8r
    · show parseGoF X.remainingAmount =
          parseGoF X.totalAmount - sumDepComp X.executionHistory
        ∨ (X.remainingAmount = "0" ∧
          0 ≤ parseGoF X.totalAmount - sumDepComp X.executionHistory ∧
          parseGoF X.totalAmount - sumDepComp X.executionHistory ≤ 1 / 100000000)
      rw [hXr, hXta, hXh, sumDepComp_append, hdca0]
      rcases hcase with hr | ⟨hz, h0, h1⟩
      · left
        rw [hr]
        ring
      · right
        exact ⟨hz, by linarith, by linarith⟩

/-! ### Characterizations of the creation validators -/

theorem validateAmount_ok_iff (s : String) :
    validateAmount s = Except.ok () ↔
    (s ≠ "" ∧ ∃ v, parseFloat s = some v ∧ 0 < v) := by
  rw [validateAmount]
  by_cases hne : s = ""
  · rw [if_pos hne]
    constructor
    · intro h
      exact absurd h (fun hc => Except.noConfusion hc)
    · rintro ⟨h, _⟩
      exact absurd hne h
  · rw [if_neg hne]
    cases hp : parseFloat s with
    | none =>
      rw [Option.elim_none]
      constructor
      · intro h
        exact absurd h (fun hc => Except.noConfusion hc)
      · rintro ⟨_, v, hv, _⟩
        exact Option.noConfusion hv
    | some v =>
      rw [Option.elim_some]
      by_cases hv : v ≤ 0
      · rw [if_pos hv]
        constructor
        · intro h
          exact absurd h (fun hc => Except.noConfusion hc)
        · rintro ⟨_, w, hw, hw0⟩
          injection hw with hvw
          rw [← hvw] at hw0
          exact absurd hw0 (not_lt.mpr hv)
      · rw [if_neg hv]
        exact ⟨fun _ => ⟨hne, v, rfl, lt_of_not_le hv⟩, fun _ => rfl⟩

theorem validate_ok_iff (tp : TradingPlan)
    (hta : tp.totalAmount ≠ "" ∧ tp.totalAmount ≠ "0")
    (hpt : tp.amountPerTrade ≠ "" ∧ tp.amountPerTrade ≠ "0")
    (hpd : tp.amountPerDay ≠ "" ∧ tp.amountPerDay ≠ "0")
    (htr : tp.triggerPrice ≠ "" ∧ tp.triggerPrice ≠ "0") :
    tp.validate = Except.ok () ↔
    (tp.name ≠ "" ∧ tp.sourceToken ≠ "" ∧ tp.destToken ≠ "" ∧
     tp.sourceChain ≠ "" ∧ tp.destChain ≠ "" ∧
     (tp.priceCondition = PriceAbove ∨ tp.priceCondition = PriceBelow ∨
      tp.priceCondition = PriceAt) ∧
     tp.recipientAddr ≠ "") := by
  rw [TradingPlan.validate]
  by_cases h1 : tp.name = ""
  · rw [if_pos h1]
    exact ⟨fun h => absurd h (fun hc => Except.noConfusion hc),
      fun ⟨ha, _⟩ => absurd h1 ha⟩
  rw [if_neg h1]
  by_cases h2 : tp.sourceToken = ""
  · rw [if_pos h2]
    exact ⟨fun h => absurd h (fun hc => Except.noConfusion hc),
      fun ⟨_, ha, _⟩ => absurd h2 ha⟩
  rw [if_neg h2]
  by_cases h3 : tp.destToken = ""
  · rw [if_pos h3]
    exact ⟨fun h => absurd h (fun hc => Except.noConfusion hc),
      fun ⟨_, _, ha, _⟩ => absurd h3 ha⟩
  rw [if_neg h3]
  by_cases h4 : tp.sourceChain = ""
  · rw [if_pos h4]
    exact ⟨fun h => absurd h (fun hc => Except.noConfusion hc),
      fun ⟨_, _, _, ha, _⟩ => absurd h4 ha⟩
  rw [if_neg h4]
  by_cases h5 : tp.destChain = ""
  · rw [if_pos h5]
    exact ⟨fun h => absurd h (fun hc => Except.noConfusion hc),
      fun ⟨_, _, _, _, ha, _⟩ => absurd h5 ha⟩
  rw [if_neg h5]
  rw [if_neg (by rintro (h | h) <;> [exact hta.1 h; exact hta.2 h])]
  rw [if_neg (by rintro (h | h) <;> [exact hpt.1 h; exact hpt.2 h])]
  rw [if_neg (by rintro (h | h) <;> [exact hpd.1 h; exact hpd.2 h])]
  rw [if_neg (by rintro (h | h) <;> [exact htr.1 h; exact htr.2 h])]
  by_cases h6 : tp.priceCondition = PriceAbove ∨ tp.priceCondition = PriceBelow ∨
      tp.priceCondition = PriceAt
  · rw [if_neg (not_not.mpr h6)]
    by_cases h7 : tp.recipientAddr = ""
    · rw [if_pos h7]
      exact ⟨fun h => absurd h (fun hc => Except.noConfusion hc),
        fun ⟨_, _, _, _, _, _, ha⟩ => absurd h7 ha⟩
    · rw [if_neg h7]
      exact ⟨fun _ => ⟨h1, h2, h3, h4, h5, h6, h7⟩, fun _ => rfl⟩
  · rw [if_pos h6]
    exact ⟨fun h => absurd h (fun hc => Except.noConfusion hc),
      fun ⟨_, _, _, _, _, ha, _⟩ => absurd ha h6⟩

/-! ## Claims -/

/-- **C7** (confirmed).  For every plan with a numeric trigger price and
every probed price, `CheckTriggerCondition` succeeds and returns: with
comparator `above`, true iff price ≥ trigger; with `below`, true iff
price ≤ trigger; with `at`, true iff |price − trigger| ≤ 0.005·trigger. -/
theorem C7_checkTriggerCondition (p : TradingPlan) (info : PriceInfo) (t : ℚ)
    (ht : parseFloat p.triggerPrice = some t) :
    (p.priceCondition = PriceAbove →
      ∃ b, checkTriggerCondition p info = Except.ok b ∧ (b = true ↔ t ≤ info.priceFloat))
    ∧ (p.priceCondition = PriceBelow →
      ∃ b, checkTriggerCondition p info = Except.ok b ∧ (b = true ↔ info.priceFloat ≤ t))
    ∧ (p.priceCondition = PriceAt →
      ∃ b, checkTriggerCondition p info = Except.ok b ∧
        (b = true ↔ |info.priceFloat - t| ≤ t * (5 / 1000))) := by
  refine ⟨?_, ?_, ?_⟩ <;> intro hc
  · exact ⟨decide (t ≤ info.priceFloat),
      by simp +decide [checkTriggerCondition, ht, hc, PriceAbove, PriceBelow, PriceAt,
        ge_iff_le], by simp⟩
  · exact ⟨decide (info.priceFloat ≤ t),
      by simp +decide [checkTriggerCondition, ht, hc, PriceAbove, PriceBelow, PriceAt],
      by simp⟩
  · exact ⟨decide (|info.priceFloat - t| ≤ t * (5 / 1000)),
      by simp +decide [checkTriggerCondition, ht, hc, PriceAbove, PriceBelow, PriceAt],
      by simp⟩

/-- Witness for C7 at the spec's examples: `below 3000` fires at 2999.99
and not at 3000.01; `at 100` fires at 100.4 and not at 101.0. -/
theorem C7_checkTriggerCondition_witness :
    checkTriggerCondition { priceCondition := PriceBelow, triggerPrice := "3000" }
      { priceFloat := 299999 / 100 } = Except.ok true
    ∧ checkTriggerCondition { priceCondition := PriceBelow, triggerPrice := "3000" }
      { priceFloat := 300001 / 100 } = Except.ok false
    ∧ checkTriggerCondition { priceCondition := PriceAt, triggerPrice := "100" }
      { priceFloat := 1004 / 10 } = Except.ok true
    ∧ checkTriggerCondition { priceCondition := PriceAt, triggerPrice := "100" }
      { priceFloat := 101 } = Except.ok false := by
  have hp3000 : parseFloat "3000" = some 3000 := by
    simp +decide [parseFloat, parseSigned, parseUnsigned, parseMantissa, breakAtExp,
      breakAtDot, natOfDigits, digVal, allDigits, pow10, String.toList]
  have hp100 : parseFloat "100" = some 100 := by
    simp +decide [parseFloat, parseSigned, parseUnsigned, parseMantissa, breakAtExp,
      breakAtDot, natOfDigits, digVal, allDigits, pow10, String.toList]
  refine ⟨?_, ?_, ?_, ?_⟩
  · obtain ⟨b, hb, hiff⟩ :=
      (C7_checkTriggerCondition { priceCondition := PriceBelow, triggerPrice := "3000" }
        { priceFloat := 299999 / 100 } 3000 hp3000).2.1 rfl
    rwa [hiff.mpr (by norm_num)] at hb
  · obtain ⟨b, hb, hiff⟩ :=
      (C7_checkTriggerCondition { priceCondition := PriceBelow, triggerPrice := "3000" }
        { priceFloat := 300001 / 100 } 3000 hp3000).2.1 rfl
    have hb' : b = false := by
      rcases Bool.eq_false_or_eq_true b with h | h
      · exact absurd (hiff.mp h) (by norm_num)
      · exact h
    rwa [hb'] at hb
  · obtain ⟨b, hb, hiff⟩ :=
      (C7_checkTriggerCondition { priceCondition := PriceAt, triggerPrice := "100" }
        { priceFloat := 1004 / 10 } 100 hp100).2.2 rfl
    rw [hiff.mpr (by rw [abs_of_nonneg (by norm_num)]; norm_num)] at hb
    exact hb
  · obtain ⟨b, hb, hiff⟩ :=
      (C7_checkTriggerCondition { priceCondition := PriceAt, triggerPrice := "100" }
        { priceFloat := 101 } 100 hp100).2.2 rfl
    have hb' : b = false := by
      rcases Bool.eq_false_or_eq_true b with h | h
      · have := hiff.mp h
        rw [abs_of_nonneg (by norm_num)] at this
        norm_num at this
      · exact h
    rwa [hb'] at hb

/-- **C8** (confirmed).  A plan that is not Active, or whose stored
`remaining_amount` is `"0"` (the Registry's representation of an
exhausted plan), makes `ShouldExecute` return false without consulting
the Quote Service — the result does not depend on the quote oracle; any
other plan has the price fetched and the trigger condition evaluated,
with `GetPrice` errors propagated. -/
theorem C8_shouldExecute (p : TradingPlan)
    (g g2 : SwapRequest → Except String QuoteResp) :
    (¬(p.status = StatusActive ∧ p.remainingAmount ≠ "0") →
      shouldExecute p g = Except.ok (false, none) ∧
      shouldExecute p g = shouldExecute p g2)
    ∧ ((p.status = StatusActive ∧ p.remainingAmount ≠ "0") →
      (∀ e, getPrice p g = Except.error e → shouldExecute p g = Except.error e)
      ∧ (∀ info b, getPrice p g = Except.ok info →
          checkTriggerCondition p info = Except.ok b →
          shouldExecute p g = Except.ok (b, some info))
      ∧ (∀ info e, getPrice p g = Except.ok info →
          checkTriggerCondition p info = Except.error e →
          shouldExecute p g = Except.error e)) := by
  constructor
  · intro hno
    have hce : ¬p.canExecute = true := by
      rw [canExecute_iff]
      exact hno
    constructor <;> simp [shouldExecute, hce]
  · intro hyes
    have hce : p.canExecute = true := (canExecute_iff p).mpr hyes
    refine ⟨?_, ?_, ?_⟩
    · intro e he
      simp [shouldExecute, hce, he]
    · intro info b hinfo hb
      simp [shouldExecute, hce, hinfo, hb]
    · intro info e hinfo he
      simp [shouldExecute, hce, hinfo, he]

/-- Witness for C8: a paused plan answers `(false, none)` for any two
oracles, and an active plan with remaining funds propagates the probe. -/
theorem C8_shouldExecute_witness :
    shouldExecute { status := StatusPaused, remainingAmount := "10" }
      (fun _ => Except.error "boom") = Except.ok (false, none)
    ∧ shouldExecute { status := StatusPaused, remainingAmount := "10" }
      (fun _ => Except.error "boom") =
      shouldExecute { status := StatusPaused, remainingAmount := "10" }
      (fun _ => Except.ok {}) := by
  have h := (C8_shouldExecute { status := StatusPaused, remainingAmount := "10" }
    (fun _ => Except.error "boom") (fun _ => Except.ok {})).1
    (by simp +decide [StatusPaused, StatusActive])
  exact h

/-- **C9** (confirmed).  `UpdateExecutionWithSwapStatus` fails with a
not-found error (leaving the stored plan unmodified) when no execution
has the given id; otherwise it patches exactly the first matching
execution in place: settlement `SUCCESS`/`COMPLETED` sets execution
status Completed with a completion timestamp, `FAILED`/`REFUNDED` sets
Failed, and any other settlement string leaves status and completion
time unchanged. -/
theorem C9_updateExecutionWithSwapStatus (p : TradingPlan)
    (executionID sw ao dtx : String) (now : Nat) :
    ((∀ e ∈ p.executionHistory, e.id ≠ executionID) →
      ∃ msg, updateExecutionWithSwapStatus p executionID sw ao dtx now =
        Except.error msg)
    ∧ (∀ pre e post, p.executionHistory = pre ++ e :: post →
        (∀ f ∈ pre, f.id ≠ executionID) → e.id = executionID →
        updateExecutionWithSwapStatus p executionID sw ao dtx now =
          Except.ok { p with
            executionHistory := pre ++ patchSwap sw ao dtx now e :: post
            lastUpdated := now })
    ∧ (∀ e, (patchSwap sw ao dtx now e).status =
        (if sw = "SUCCESS" ∨ sw = "COMPLETED" then ExecutionCompleted
         else if sw = "FAILED" ∨ sw = "REFUNDED" then ExecutionFailed
         else e.status))
    ∧ (∀ e, (patchSwap sw ao dtx now e).completionTime =
        (if sw = "SUCCESS" ∨ sw = "COMPLETED" then some now else e.completionTime))
    ∧ (∀ e, (patchSwap sw ao dtx now e).id = e.id ∧
        (patchSwap sw ao dtx now e).amount = e.amount ∧
        (patchSwap sw ao dtx now e).timestamp = e.timestamp ∧
        (patchSwap sw ao dtx now e).swapStatus = sw) := by
  refine ⟨?_, ?_, ?_, ?_, ?_⟩
  · intro hnone
    refine ⟨"execution " ++ executionID ++ " not found in plan " ++ p.name, ?_⟩
    rw [updateExecutionWithSwapStatus, updateFirstById_of_not_mem hnone, Option.elim_none]
  · intro pre e post hh hpre he
    rw [updateExecutionWithSwapStatus, hh, updateFirstById_found pre post hpre he,
      Option.elim_some]
  · intro e
    rw [patchSwap.eq_def]
    split_ifs <;> simp_all
  · intro e
    rw [patchSwap.eq_def]
    split_ifs <;> simp_all
  · intro e
    rw [patchSwap.eq_def]
    split_ifs <;> simp_all

/-- Witness for C9: one plan with two executions; patching the second by
id with settlement `FAILED` marks exactly it Failed, and an unknown id is
a not-found error. -/
theorem C9_updateExecutionWithSwapStatus_witness :
    updateExecutionWithSwapStatus
      { name := "p", executionHistory :=
        [{ id := "e1", status := ExecutionDeposited },
         { id := "e2", status := ExecutionDeposited }] }
      "e2" "FAILED" "" "" 7 =
      Except.ok { name := "p", lastUpdated := 7, executionHistory :=
        [{ id := "e1", status := ExecutionDeposited },
         { id := "e2", status := ExecutionFailed, swapStatus := "FAILED" }] }
    ∧ ∃ msg, updateExecutionWithSwapStatus
      { name := "p", executionHistory :=
        [{ id := "e1", status := ExecutionDeposited }] }
      "e9" "FAILED" "" "" 7 = Except.error msg := by
  constructor
  · have h := (C9_updateExecutionWithSwapStatus
      { name := "p", executionHistory :=
        [{ id := "e1", status := ExecutionDeposited },
         { id := "e2", status := ExecutionDeposited }] }
      "e2" "FAILED" "" "" 7).2.1
      [{ id := "e1", status := ExecutionDeposited }]
      { id := "e2", status := ExecutionDeposited } [] rfl
      (by intro f hf; simp at hf; subst hf; decide) rfl
    rw [h]
    congr 1
  · exact (C9_updateExecutionWithSwapStatus
      { name := "p", executionHistory :=
        [{ id := "e1", status := ExecutionDeposited }] }
      "e9" "FAILED" "" "" 7).1
      (by intro e he; simp at he; subst he; decide)

/-- **C10** (confirmed).  An execution recorded as deposited or completed
whose amount strictly exceeds the plan's remaining amount still succeeds:
`AddExecution` performs no bound check, the updated remaining value is
negative, so the completion clamp fires — the plan transitions to
Completed and the stored `remaining_amount` becomes the literal `"0"`
rather than a negative value. -/
theorem C10_overshoot_clamps (p : TradingPlan) (e : Execution)
    (genId today : String) (now : Nat)
    (hs : e.status = ExecutionDeposited ∨ e.status = ExecutionCompleted)
    (hover : parseGoF p.remainingAmount < parseGoF e.amount) :
    ∃ q, addExecution p e genId now today = Except.ok q ∧
      q.status = StatusCompleted ∧ q.remainingAmount = "0" := by
  refine ⟨addExecutionP p e genId now today, rfl, ?_⟩
  have hs' : ({ e with id := genId, timestamp := now } : Execution).status =
      ExecutionCompleted ∨
      ({ e with id := genId, timestamp := now } : Execution).status =
      ExecutionDeposited := by
    rcases hs with h | h
    · exact Or.inr h
    · exact Or.inl h
  have hclamp : parseGoF (dayReset
        (appendExec p { e with id := genId, timestamp := now }) today).remainingAmount -
      parseGoF ({ e with id := genId, timestamp := now } : Execution).amount ≤
      1 / 100000000 := by
    rw [dayReset_remainingAmount, appendExec_remainingAmount]
    have ha : ({ e with id := genId, timestamp := now } : Execution).amount = e.amount := rfl
    rw [ha]
    linarith
  simp only [addExecutionP]
  rw [applyAmounts_clamp _ hs' hclamp]
  exact ⟨rfl, rfl⟩

/-- Witness for C10: total 10, remaining 10, deposited execution of 20. -/
theorem C10_overshoot_clamps_witness :
    (2 : ℚ) < 20 ∧
    ∃ q, addExecution
      { name := "p", status := StatusActive, totalAmount := "10",
        totalExecuted := "8", remainingAmount := "2" }
      { amount := "20", status := ExecutionDeposited } "e1" 3 "2026-01-01" =
      Except.ok q ∧ q.status = StatusCompleted ∧ q.remainingAmount = "0" := by
  have hp2 : parseGoF "2" = 2 := by
    simp +decide [parseGoF, parseFloat, parseSigned, parseUnsigned, parseMantissa,
      breakAtExp, breakAtDot, natOfDigits, digVal, allDigits, pow10, String.toList]
  have hp20 : parseGoF "20" = 20 := by
    simp +decide [parseGoF, parseFloat, parseSigned, parseUnsigned, parseMantissa,
      breakAtExp, breakAtDot, natOfDigits, digVal, allDigits, pow10, String.toList]
  refine ⟨by norm_num, ?_⟩
  exact C10_overshoot_clamps
    { name := "p", status := StatusActive, totalAmount := "10",
      totalExecuted := "8", remainingAmount := "2" }
    { amount := "20", status := ExecutionDeposited } "e1" "2026-01-01" 3
    (Or.inl rfl) (by rw [hp2, hp20]; norm_num)

/-- **C2 counterexample**.  The claim says Cancelled is applied only to
Active plans and that no operation leaves Cancelled.  But `CancelPlan`
checks no precondition — it cancels a Paused plan — and `StartPlan` only
rejects Active and Completed, so it moves a Cancelled plan back to
Active. -/
theorem C2_counterexample :
    StatusPaused ≠ StatusActive
    ∧ cancelPlan { name := "p", status := StatusPaused } 1 =
      Except.ok { name := "p", status := StatusCancelled, lastUpdated := 1 }
    ∧ startPlan { name := "p", status := StatusCancelled } 2 =
      Except.ok { name := "p", status := StatusActive, lastUpdated := 2 } := by
  refine ⟨by decide, rfl, ?_⟩
  rw [startPlan, if_neg (by decide), if_neg (by decide)]

/-- **C2 amended** (the claim corrected to what the code does).
`StartPlan` succeeds exactly when the status is neither Active nor
Completed — including from Cancelled, which is therefore not terminal —
and sets Active; `StopPlan` succeeds exactly on Active and sets Paused;
`CancelPlan` succeeds unconditionally (from any status, not only Active)
and sets Cancelled; `AddExecution` changes the status only to Completed.
`StartPlan` does fail on Completed, as the claim says. -/
theorem C2_amended_transitions (p : TradingPlan) (now : Nat) :
    ((∃ q, startPlan p now = Except.ok q) ↔
      (p.status ≠ StatusActive ∧ p.status ≠ StatusCompleted))
    ∧ (∀ q, startPlan p now = Except.ok q → q.status = StatusActive)
    ∧ ((∃ q, stopPlan p now = Except.ok q) ↔ p.status = StatusActive)
    ∧ (∀ q, stopPlan p now = Except.ok q → q.status = StatusPaused)
    ∧ (∃ q, cancelPlan p now = Except.ok q ∧ q.status = StatusCancelled)
    ∧ (∀ e genId now2 today, ∀ q, addExecution p e genId now2 today = Except.ok q →
        q.status = p.status ∨ q.status = StatusCompleted) := by
  refine ⟨?_, ?_, ?_, ?_, ⟨_, rfl, rfl⟩, ?_⟩
  · constructor
    · rintro ⟨q, hq⟩
      rw [startPlan] at hq
      by_cases h1 : p.status = StatusActive
      · rw [if_pos h1] at hq
        exact absurd hq (fun hc => Except.noConfusion hc)
      · rw [if_neg h1] at hq
        by_cases h2 : p.status = StatusCompleted
        · rw [if_pos h2] at hq
          exact absurd hq (fun hc => Except.noConfusion hc)
        · exact ⟨h1, h2⟩
    · rintro ⟨h1, h2⟩
      exact ⟨_, by rw [startPlan, if_neg h1, if_neg h2]⟩
  · intro q hq
    rw [startPlan] at hq
    by_cases h1 : p.status = StatusActive
    · rw [if_pos h1] at hq
      exact absurd hq (fun hc => Except.noConfusion hc)
    · rw [if_neg h1] at hq
      by_cases h2 : p.status = StatusCompleted
      · rw [if_pos h2] at hq
        exact absurd hq (fun hc => Except.noConfusion hc)
      · rw [if_neg h2] at hq
        cases hq
        rfl
  · constructor
    · rintro ⟨q, hq⟩
      rw [stopPlan] at hq
      by_cases h1 : p.status ≠ StatusActive
      · rw [if_pos h1] at hq
        exact absurd hq (fun hc => Except.noConfusion hc)
      · exact not_not.mp h1
    · intro h1
      exact ⟨_, by rw [stopPlan, if_neg (not_not.mpr h1)]⟩
  · intro q hq
    rw [stopPlan] at hq
    by_cases h1 : p.status ≠ StatusActive
    · rw [if_pos h1] at hq
      exact absurd hq (fun hc => Except.noConfusion hc)
    · rw [if_neg h1] at hq
      cases hq
      rfl
  · intro e genId now2 today q hq
    rw [addExecution] at hq
    cases hq
    exact addExecutionP_status_cases p e genId now2 today

/-- Witness for the amended C2: a Paused plan starts successfully into
Active, and stopping a Paused plan fails. -/
theorem C2_amended_transitions_witness :
    (∃ q, startPlan { name := "p", status := StatusPaused } 5 = Except.ok q ∧
      q.status = StatusActive)
    ∧ ¬(∃ q, stopPlan { name := "p", status := StatusPaused } 5 = Except.ok q) := by
  have h := C2_amended_transitions { name := "p", status := StatusPaused } 5
  constructor
  · obtain ⟨q, hq⟩ := h.1.mpr ⟨by decide, by decide⟩
    exact ⟨q, hq, h.2.1 q hq⟩
  · intro hex
    exact absurd (h.2.2.1.mp hex) (by decide)

/-- **C5 counterexample**.  With stored total 10 / executed 0 / remaining
10 and a deposited execution of amount 20, `AddExecution` succeeds and
stores `total_executed = "20.00000000"` but clamps `remaining_amount` to
`"0"`: `10 − 20 = −10` is ten units away from the stored `0`, far beyond
1e-8 — so the claim fails without a precondition bounding the execution
amount by the remaining amount. -/
theorem C5_counterexample :
    ∃ q, addExecution
      { name := "p", status := StatusActive, totalAmount := "10",
        totalExecuted := "0", remainingAmount := "10" }
      { amount := "20", status := ExecutionDeposited } "e1" 1 "2026-01-01" =
      Except.ok q
      ∧ q.totalAmount = "10" ∧ q.totalExecuted = "20.00000000"
      ∧ q.remainingAmount = "0"
      ∧ ¬(|parseGoF q.totalAmount - parseGoF q.totalExecuted -
          parseGoF q.remainingAmount| ≤ 1 / 100000000) := by
  set p0 : TradingPlan :=
    { name := "p", status := StatusActive, totalAmount := "10",
      totalExecuted := "0", remainingAmount := "10" } with hp0
  set e0 : Execution := { amount := "20", status := ExecutionDeposited } with he0
  set e1 : Execution := { e0 with id := "e1", timestamp := 1 } with he1
  set X : TradingPlan := dayReset (appendExec p0 e1) "2026-01-01" with hX
  have hXr : X.remainingAmount = "10" := by
    rw [hX, dayReset_remainingAmount, appendExec_remainingAmount]
  have hXt : X.totalExecuted = "0" := by
    rw [hX, dayReset_totalExecuted, appendExec_totalExecuted]
  have hXta : X.totalAmount = "10" := by
    rw [hX, dayReset_totalAmount, appendExec_totalAmount]
  have hdep : e1.status = ExecutionCompleted ∨ e1.status = ExecutionDeposited :=
    Or.inr rfl
  have hcl : parseGoF X.remainingAmount - parseGoF e1.amount ≤ 1 / 100000000 := by
    rw [hXr]
    have : parseGoF e1.amount = parseGoF "20" := rfl
    rw [this, parseGoF_ten, parseGoF_twenty]
    norm_num
  have hstep : addExecutionP p0 e0 "e1" 1 "2026-01-01" =
      { applyAmounts X e1 with lastUpdated := 1 } := rfl
  refine ⟨addExecutionP p0 e0 "e1" 1 "2026-01-01", rfl, ?_, ?_, ?_, ?_⟩
  · rw [hstep, applyAmounts_clamp X hdep hcl]
    exact hXta
  · rw [hstep, applyAmounts_clamp X hdep hcl]
    show fmt8 (parseGoF X.totalExecuted + parseGoF e1.amount) = "20.00000000"
    have : parseGoF e1.amount = parseGoF "20" := rfl
    rw [hXt, this, parseGoF_zero, parseGoF_twenty, zero_add, fmt8_twenty]
  · rw [hstep, applyAmounts_clamp X hdep hcl]
  · rw [hstep, applyAmounts_clamp X hdep hcl]
    show ¬(|parseGoF X.totalAmount -
      parseGoF (fmt8 (parseGoF X.totalExecuted + parseGoF e1.amount)) -
      parseGoF "0"| ≤ 1 / 100000000)
    have he : parseGoF e1.amount = parseGoF "20" := rfl
    rw [hXta, hXt, he, parseGoF_zero, parseGoF_ten, parseGoF_twenty, zero_add,
      fmt8_twenty]
    have h20 : parseGoF "20.00000000" = 20 := by
      rw [← fmt8_twenty, parseGoF_fmt8, round8_eq_self]
      exact ⟨2000000000, by norm_num⟩
    rw [h20]
    rw [abs_of_nonpos (by norm_num)]
    norm_num

/-- **C5 amended**.  For a plan whose stored values satisfy the exact
invariant `total − executed = remaining` at eight-decimal precision (as
the Registry maintains them), a successful `AddExecution` whose
execution either is not deposited/completed or has amount at most the
remaining amount leaves `total_amount − total_executed` within 1e-8 of
`remaining_amount`. -/
theorem C5_amended_addExecution (p : TradingPlan) (e : Execution)
    (genId today : String) (now : Nat)
    (hinv : parseGoF p.totalAmount - parseGoF p.totalExecuted =
      parseGoF p.remainingAmount)
    (hd8r : Dec8 (parseGoF p.remainingAmount))
    (hd8t : Dec8 (parseGoF p.totalExecuted))
    (hd8a : Dec8 (parseGoF e.amount))
    (hok : e.status = ExecutionDeposited ∨ e.status = ExecutionCompleted →
      parseGoF e.amount ≤ parseGoF p.remainingAmount) :
    ∀ q, addExecution p e genId now today = Except.ok q →
      |parseGoF q.totalAmount - parseGoF q.totalExecuted -
        parseGoF q.remainingAmount| ≤ 1 / 100000000 := by
  intro q hq
  rw [addExecution] at hq
  cases hq
  set e1 : Execution := { e with id := genId, timestamp := now } with he1
  set X : TradingPlan := dayReset (appendExec p e1) today with hX
  have hXr : X.remainingAmount = p.remainingAmount := by
    rw [hX, dayReset_remainingAmount, appendExec_remainingAmount]
  have hXt : X.totalExecuted = p.totalExecuted := by
    rw [hX, dayReset_totalExecuted, appendExec_totalExecuted]
  have hXta : X.totalAmount = p.totalAmount := by
    rw [hX, dayReset_totalAmount, appendExec_totalAmount]
  have hstep : addExecutionP p e genId now today =
      { applyAmounts X e1 with lastUpdated := now } := rfl
  have hea : parseGoF e1.amount = parseGoF e.amount := rfl
  by_cases hdep : e1.status = ExecutionCompleted ∨ e1.status = ExecutionDeposited
  · have hamt : parseGoF e.amount ≤ parseGoF p.remainingAmount := by
      apply hok
      rcases hdep with h | h
      · exact Or.inr h
      · exact Or.inl h
    by_cases hcl : parseGoF X.remainingAmount - parseGoF e1.amount ≤ 1 / 100000000
    · rw [hstep, applyAmounts_clamp X hdep hcl]
      show |parseGoF X.totalAmount -
        parseGoF (fmt8 (parseGoF X.totalExecuted + parseGoF e1.amount)) -
        parseGoF "0"| ≤ 1 / 100000000
      rw [hXta, hXt, hea, parseGoF_zero, parseGoF_fmt8,
        round8_eq_self (Dec8_add hd8t hd8a)]
      rw [hXr, hea] at hcl
      have hval : parseGoF p.totalAmount -
          (parseGoF p.totalExecuted + parseGoF e.amount) - 0 =
          parseGoF p.remainingAmount - parseGoF e.amount := by
        rw [← hinv]
        ring
      rw [hval, abs_of_nonneg (by linarith)]
      linarith
    · rw [hstep, applyAmounts_no_clamp X hdep hcl]
      show |parseGoF X.totalAmount -
        parseGoF (fmt8 (parseGoF X.totalExecuted + parseGoF e1.amount)) -
        parseGoF (fmt8 (parseGoF X.remainingAmount - parseGoF e1.amount))| ≤
        1 / 100000000
      rw [hXta, hXt, hXr, hea, parseGoF_fmt8, parseGoF_fmt8,
        round8_eq_self (Dec8_add hd8t hd8a), round8_eq_self (Dec8_sub hd8r hd8a)]
      have hval : parseGoF p.totalAmount -
          (parseGoF p.totalExecuted + parseGoF e.amount) -
          (parseGoF p.remainingAmount - parseGoF e.amount) = 0 := by
        rw [← hinv]
        ring
      rw [hval, abs_zero]
      norm_num
  · rw [hstep, applyAmounts_of_not_depComp X hdep]
    show |parseGoF X.totalAmount - parseGoF X.totalExecuted -
      parseGoF X.remainingAmount| ≤ 1 / 100000000
    rw [hXta, hXt, hXr, hinv]
    simp

/-- Witness for the amended C5: total 10, executed 0, remaining 10, a
deposited execution of 2 (within remaining). -/
theorem C5_amended_addExecution_witness :
    |parseGoF (addExecutionP
      { name := "p", status := StatusActive, totalAmount := "10",
        totalExecuted := "0", remainingAmount := "10" }
      { amount := "2", status := ExecutionDeposited } "e1" 1 "2026-01-01").totalAmount -
     parseGoF (addExecutionP
      { name := "p", status := StatusActive, totalAmount := "10",
        totalExecuted := "0", remainingAmount := "10" }
      { amount := "2", status := ExecutionDeposited } "e1" 1 "2026-01-01").totalExecuted -
     parseGoF (addExecutionP
      { name := "p", status := StatusActive, totalAmount := "10",
        totalExecuted := "0", remainingAmount := "10" }
      { amount := "2", status := ExecutionDeposited } "e1" 1 "2026-01-01").remainingAmount| ≤
      1 / 100000000 := by
  apply C5_amended_addExecution
    { name := "p", status := StatusActive, totalAmount := "10",
      totalExecuted := "0", remainingAmount := "10" }
    { amount := "2", status := ExecutionDeposited } "e1" "2026-01-01" 1
  · show parseGoF "10" - parseGoF "0" = parseGoF "10"
    rw [parseGoF_ten, parseGoF_zero]
    ring
  · show Dec8 (parseGoF "10")
    rw [parseGoF_ten]
    exact ⟨1000000000, by norm_num⟩
  · show Dec8 (parseGoF "0")
    rw [parseGoF_zero]
    exact ⟨0, by norm_num⟩
  · show Dec8 (parseGoF "2")
    rw [parseGoF_two]
    exact ⟨200000000, by norm_num⟩
  · intro _
    show parseGoF "2" ≤ parseGoF "10"
    rw [parseGoF_two, parseGoF_ten]
    norm_num
  · rfl

/-- **C6 counterexample**.  All four numeric fields are valid positive
decimals, the ordering `1 ≤ 2 ≤ 10` holds and the name is fresh, so the
claim says `CreatePlan` succeeds — but with an empty recipient address it
returns an error: the claim omits `Validate`'s non-numeric requirements
(name, tokens, chains, price condition, recipient address). -/
theorem C6_counterexample :
    (parseFloat "10" = some 10 ∧ parseFloat "1" = some 1 ∧
     parseFloat "2" = some 2 ∧ parseFloat "3000" = some 3000 ∧
     parseGoF "1" ≤ parseGoF "2" ∧ parseGoF "2" ≤ parseGoF "10") ∧
    createPlan false "p1" "BTC" "USDC" "bitcoin" "ethereum" "10" "1" "2" "3000"
      PriceBelow "" "refundaddr" "dca plan" 0 =
      Except.error ("" ++ "recipient address is required") := by
  refine ⟨⟨parseFloat_lit_ten, parseFloat_lit_one, parseFloat_lit_two,
    parseFloat_lit_3000, ?_, ?_⟩, ?_⟩
  · rw [parseGoF_one, parseGoF_two]
    norm_num
  · rw [parseGoF_two, parseGoF_ten]
    norm_num
  · rw [createPlan, if_neg (by decide)]
    rw [(validateAmount_ok_iff "10").mpr ⟨by decide, 10, parseFloat_lit_ten, by norm_num⟩,
      (validateAmount_ok_iff "1").mpr ⟨by decide, 1, parseFloat_lit_one, by norm_num⟩,
      (validateAmount_ok_iff "2").mpr ⟨by decide, 2, parseFloat_lit_two, by norm_num⟩,
      (validateAmount_ok_iff "3000").mpr ⟨by decide, 3000, parseFloat_lit_3000, by norm_num⟩]
    simp only [bindErr_ok]
    rw [if_neg (by rw [parseGoF_one, parseGoF_two]; norm_num),
      if_neg (by rw [parseGoF_two, parseGoF_ten]; norm_num)]
    have hval : (mkPlan "p1" "BTC" "USDC" "bitcoin" "ethereum" "10" "1" "2" "3000"
        PriceBelow "" "refundaddr" "dca plan" 0).validate =
        Except.error "recipient address is required" := by
      rw [mkPlan, TradingPlan.validate]
      rw [if_neg (by decide), if_neg (by decide), if_neg (by decide),
        if_neg (by decide), if_neg (by decide), if_neg (by decide),
        if_neg (by decide), if_neg (by decide), if_neg (by decide),
        if_neg (by decide), if_pos rfl]
    rw [hval, bindErr_error]

/-- **C6 amended**.  `CreatePlan` succeeds — with a Paused plan, zero
executed and remaining = total — exactly when: the name is fresh, all
four numeric fields parse as strictly positive decimals,
`per_trade ≤ per_day ≤ total`, and additionally (omitted by the claim)
the name, tokens, chains and recipient address are non-empty and the
price condition is one of above/below/at. -/
theorem C6_amended_createPlan (nameExists : Bool)
    (name st dt sc dc total perTrade perDay trig cond recip refund desc : String)
    (now : Nat) :
    (∃ q, createPlan nameExists name st dt sc dc total perTrade perDay trig
        cond recip refund desc now = Except.ok q
      ∧ q.status = StatusPaused ∧ q.totalExecuted = "0"
      ∧ q.remainingAmount = total ∧ q.totalAmount = total
      ∧ q.executionHistory = [] ∧ q.name = name)
    ↔ (nameExists = false
      ∧ (total ≠ "" ∧ ∃ v, parseFloat total = some v ∧ 0 < v)
      ∧ (perTrade ≠ "" ∧ ∃ v, parseFloat perTrade = some v ∧ 0 < v)
      ∧ (perDay ≠ "" ∧ ∃ v, parseFloat perDay = some v ∧ 0 < v)
      ∧ (trig ≠ "" ∧ ∃ v, parseFloat trig = some v ∧ 0 < v)
      ∧ parseGoF perTrade ≤ parseGoF perDay
      ∧ parseGoF perDay ≤ parseGoF total
      ∧ name ≠ "" ∧ st ≠ "" ∧ dt ≠ "" ∧ sc ≠ "" ∧ dc ≠ ""
      ∧ (cond = PriceAbove ∨ cond = PriceBelow ∨ cond = PriceAt)
      ∧ recip ≠ "") := by
  have hne0 : ∀ s : String, (∃ v, parseFloat s = some v ∧ 0 < v) → s ≠ "0" := by
    rintro s ⟨v, hv, h0⟩ rfl
    rw [parseFloat_lit_zero] at hv
    injection hv with h
    rw [← h] at h0
    exact absurd h0 (lt_irrefl 0)
  constructor
  · rintro ⟨q, hq, -, -, -, -, -, -⟩
    by_cases hex : nameExists
    · rw [createPlan, if_pos hex] at hq
      exact absurd hq (fun hc => Except.noConfusion hc)
    · rw [createPlan, if_neg hex] at hq
      obtain ⟨hv1, hq⟩ := bindErr_ok_ne_error _ _ _ hq
      obtain ⟨hv2, hq⟩ := bindErr_ok_ne_error _ _ _ hq
      obtain ⟨hv3, hq⟩ := bindErr_ok_ne_error _ _ _ hq
      obtain ⟨hv4, hq⟩ := bindErr_ok_ne_error _ _ _ hq
      by_cases ho1 : parseGoF perTrade > parseGoF perDay
      · rw [if_pos ho1] at hq
        exact absurd hq (fun hc => Except.noConfusion hc)
      rw [if_neg ho1] at hq
      by_cases ho2 : parseGoF perDay > parseGoF total
      · rw [if_pos ho2] at hq
        exact absurd hq (fun hc => Except.noConfusion hc)
      rw [if_neg ho2] at hq
      obtain ⟨hval, -⟩ := bindErr_ok_ne_error _ _ _ hq
      have hT := (validateAmount_ok_iff total).mp hv1
      have hPT := (validateAmount_ok_iff perTrade).mp hv2
      have hPD := (validateAmount_ok_iff perDay).mp hv3
      have hTR := (validateAmount_ok_iff trig).mp hv4
      have hvs := (validate_ok_iff
        (mkPlan name st dt sc dc total perTrade perDay trig cond recip refund desc now)
        ⟨hT.1, hne0 total hT.2⟩ ⟨hPT.1, hne0 perTrade hPT.2⟩
        ⟨hPD.1, hne0 perDay hPD.2⟩ ⟨hTR.1, hne0 trig hTR.2⟩).mp hval
      exact ⟨Bool.not_eq_true nameExists ▸ hex, hT, hPT, hPD, hTR,
        not_lt.mp ho1, not_lt.mp ho2, hvs.1, hvs.2.1, hvs.2.2.1, hvs.2.2.2.1,
        hvs.2.2.2.2.1, hvs.2.2.2.2.2.1, hvs.2.2.2.2.2.2⟩
  · rintro ⟨hex, hT, hPT, hPD, hTR, hle1, hle2, hname, hst, hdt, hsc, hdc, hcond, hrecip⟩
    subst hex
    refine ⟨mkPlan name st dt sc dc total perTrade perDay trig cond recip refund desc now,
      ?_, rfl, rfl, rfl, rfl, rfl, rfl⟩
    rw [createPlan, if_neg (by decide)]
    rw [(validateAmount_ok_iff total).mpr hT,
      (validateAmount_ok_iff perTrade).mpr hPT,
      (validateAmount_ok_iff perDay).mpr hPD,
      (validateAmount_ok_iff trig).mpr hTR]
    simp only [bindErr_ok]
    rw [if_neg (not_lt.mpr hle1), if_neg (not_lt.mpr hle2)]
    rw [(validate_ok_iff
      (mkPlan name st dt sc dc total perTrade perDay trig cond recip refund desc now)
      ⟨hT.1, hne0 total hT.2⟩ ⟨hPT.1, hne0 perTrade hPT.2⟩
      ⟨hPD.1, hne0 perDay hPD.2⟩ ⟨hTR.1, hne0 trig hTR.2⟩).mpr
      ⟨hname, hst, hdt, hsc, hdc, hcond, hrecip⟩]
    rw [bindErr_ok]

/-- Witness for the amended C6: a fully valid creation request yields the
fresh Paused plan. -/
theorem C6_amended_createPlan_witness :
    ∃ q, createPlan false "p1" "BTC" "USDC" "bitcoin" "ethereum" "10" "1" "2"
      "3000" PriceBelow "nearaddr" "refundaddr" "dca plan" 0 = Except.ok q
      ∧ q.status = StatusPaused ∧ q.totalExecuted = "0"
      ∧ q.remainingAmount = "10" ∧ q.totalAmount = "10"
      ∧ q.executionHistory = [] ∧ q.name = "p1" := by
  exact (C6_amended_createPlan false "p1" "BTC" "USDC" "bitcoin" "ethereum"
    "10" "1" "2" "3000" PriceBelow "nearaddr" "refundaddr" "dca plan" 0).mpr
    ⟨rfl,
      ⟨by decide, 10, parseFloat_lit_ten, by norm_num⟩,
      ⟨by decide, 1, parseFloat_lit_one, by norm_num⟩,
      ⟨by decide, 2, parseFloat_lit_two, by norm_num⟩,
      ⟨by decide, 3000, parseFloat_lit_3000, by norm_num⟩,
      by rw [parseGoF_one, parseGoF_two]; norm_num,
      by rw [parseGoF_two, parseGoF_ten]; norm_num,
      by decide, by decide, by decide, by decide, by decide,
      Or.inr (Or.inl rfl), by decide⟩

/-- **C1 counterexample**.  From a freshly created plan (total 10), add a
deposited execution of 2 (remaining becomes `"8.00000000"`), then let the
settlement verifier map it to Failed.  `UpdateExecutionWithSwapStatus`
changes only the execution's status: the deposited-or-completed sum drops
from 2 to 0 while `remaining_amount` stays 8, so
`|total − Σ(dep∨comp) − remaining| = 2`, far beyond 1e-8 — the equality
is *not* preserved by the Failed mapping. -/
theorem C1_counterexample :
    ∃ P0 P1 P2,
      createPlan false "p1" "BTC" "USDC" "bitcoin" "ethereum" "10" "1" "2" "3000"
        PriceBelow "nearaddr" "refundaddr" "dca plan" 0 = Except.ok P0
      ∧ addExecution P0 { amount := "2", status := ExecutionDeposited }
          "e1" 1 "2026-01-01" = Except.ok P1
      ∧ updateExecutionWithSwapStatus P1 "e1" "FAILED" "" "" 2 = Except.ok P2
      ∧ parseGoF P2.totalAmount = 10
      ∧ sumDepComp P2.executionHistory = 0
      ∧ parseGoF P2.remainingAmount = 8
      ∧ ¬(|parseGoF P2.totalAmount - sumDepComp P2.executionHistory -
          parseGoF P2.remainingAmount| ≤ 1 / 100000000) := by
  set P0 : TradingPlan := mkPlan "p1" "BTC" "USDC" "bitcoin" "ethereum" "10" "1"
    "2" "3000" PriceBelow "nearaddr" "refundaddr" "dca plan" 0 with hP0
  set e0 : Execution := { amount := "2", status := ExecutionDeposited } with he0
  set e1 : Execution := { e0 with id := "e1", timestamp := 1 } with he1
  have h0 : createPlan false "p1" "BTC" "USDC" "bitcoin" "ethereum" "10" "1" "2"
      "3000" PriceBelow "nearaddr" "refundaddr" "dca plan" 0 = Except.ok P0 := by
    rw [createPlan, if_neg (by decide)]
    rw [(validateAmount_ok_iff "10").mpr ⟨by decide, 10, parseFloat_lit_ten, by norm_num⟩,
      (validateAmount_ok_iff "1").mpr ⟨by decide, 1, parseFloat_lit_one, by norm_num⟩,
      (validateAmount_ok_iff "2").mpr ⟨by decide, 2, parseFloat_lit_two, by norm_num⟩,
      (validateAmount_ok_iff "3000").mpr ⟨by decide, 3000, parseFloat_lit_3000, by norm_num⟩]
    simp only [bindErr_ok]
    rw [if_neg (by rw [parseGoF_one, parseGoF_two]; norm_num),
      if_neg (by rw [parseGoF_two, parseGoF_ten]; norm_num)]
    rw [(validate_ok_iff P0 ⟨by decide, by decide⟩ ⟨by decide, by decide⟩
      ⟨by decide, by decide⟩ ⟨by decide, by decide⟩).mpr
      ⟨by decide, by decide, by decide, by decide, by decide,
        Or.inr (Or.inl rfl), by decide⟩, bindErr_ok]
  have hP0rem : P0.remainingAmount = "10" := rfl
  have he0a : e0.amount = "2" := rfl
  have hfields := addExecutionP_fields_no_clamp P0 e0 "e1" 1 "2026-01-01"
    (Or.inr rfl)
    (by rw [hP0rem, he0a, parseGoF_ten, parseGoF_two]; norm_num)
  obtain ⟨P1, hP1, hP1rem, hP1ta, hP1hist⟩ :
      ∃ P1 : TradingPlan, addExecutionP P0 e0 "e1" 1 "2026-01-01" = P1
        ∧ P1.remainingAmount = fmt8 8 ∧ P1.totalAmount = "10"
        ∧ P1.executionHistory = [e1] := by
    refine ⟨addExecutionP P0 e0 "e1" 1 "2026-01-01", rfl, ?_, ?_, ?_⟩
    · rw [hfields.1, hP0rem, he0a, parseGoF_ten, parseGoF_two]
      norm_num
    · rw [hfields.2.1]
      rfl
    · rw [hfields.2.2]
      rfl
  set e2 : Execution := patchSwap "FAILED" "" "" 2 e1 with he2
  have hfound : updateFirstById "e1" (patchSwap "FAILED" "" "" 2) [e1] =
      some [e2] := by
    have h := @updateFirstById_found "e1" (patchSwap "FAILED" "" "" 2) e1 [] []
      (fun x hx => absurd hx (List.not_mem_nil x)) rfl
    simpa using h
  have h2 : updateExecutionWithSwapStatus P1 "e1" "FAILED" "" "" 2 =
      Except.ok { P1 with executionHistory := [e2], lastUpdated := 2 } := by
    rw [updateExecutionWithSwapStatus, hP1hist, hfound, Option.elim_some]
  have he2s : e2.status = ExecutionFailed := by
    rw [he2, he1, he0]
    decide
  have hdca : depCompAmt e2 = 0 := by
    rw [depCompAmt, if_neg]
    intro h
    rcases h with h | h <;> rw [he2s] at h <;> exact absurd h (by decide)
  have hrem8 : parseGoF (fmt8 8) = 8 := by
    rw [parseGoF_fmt8, round8_eq_self ⟨800000000, by norm_num⟩]
  have haddE : addExecution P0 e0 "e1" 1 "2026-01-01" = Except.ok P1 := by
    rw [addExecution, hP1]
  refine ⟨P0, P1, { P1 with executionHistory := [e2], lastUpdated := 2 },
    h0, haddE, h2, ?_, ?_, ?_, ?_⟩
  · show parseGoF P1.totalAmount = 10
    rw [hP1ta, parseGoF_ten]
  · show sumDepComp [e2] = 0
    simp [sumDepComp, hdca]
  · show parseGoF P1.remainingAmount = 8
    rw [hP1rem, hrem8]
  · show ¬(|parseGoF P1.totalAmount - sumDepComp [e2] -
        parseGoF P1.remainingAmount| ≤ 1 / 100000000)
    have hs : sumDepComp [e2] = 0 := by simp [sumDepComp, hdca]
    rw [hP1ta, parseGoF_ten, hP1rem, hrem8, hs]
    rw [abs_of_nonneg (by norm_num)]
    norm_num

/-- **C1 amended**.  The equality
`remaining = total − Σ(amounts of deposited-or-completed executions)`
(within 1e-8) holds at every state reachable from a fresh plan by
`AddExecution` operations whose deposited/completed executions carry
positive eight-decimal amounts within the remaining amount; it is *not*
preserved when `UpdateExecutionWithSwapStatus` maps a deposited
execution's settlement to `FAILED`, since that patch changes only the
execution's status and leaves `remaining_amount` untouched. -/
theorem C1_amended_invariant (p0 p : TradingPlan)
    (hh : p0.executionHistory = [])
    (hr : p0.remainingAmount = p0.totalAmount)
    (hd8 : Dec8 (parseGoF p0.totalAmount))
    (hreach : AddReach p0 p) :
    |parseGoF p.totalAmount - sumDepComp p.executionHistory -
      parseGoF p.remainingAmount| ≤ 1 / 100000000 := by
  have hinv : AmtInv p := by
    induction hreach with
    | refl =>
      refine ⟨by rw [hr]; exact hd8, Or.inl ?_⟩
      rw [hh, sumDepComp_nil, hr]
      ring
    | step q' e genId now today hq hcond ih =>
      exact AmtInv_addExecutionP q' e genId now today hcond ih
  obtain ⟨_, hcase⟩ := hinv
  rcases hcase with hrem | ⟨hz, h0, h1⟩
  · rw [hrem]
    have : parseGoF p.totalAmount - sumDepComp p.executionHistory -
        (parseGoF p.totalAmount - sumDepComp p.executionHistory) = 0 := by ring
    rw [this, abs_zero]
    norm_num
  · rw [hz, parseGoF_zero, sub_zero, abs_of_nonneg h0]
    exact h1

/-- Witness for the amended C1: one deposited execution of 2 against a
fresh plan with total 10 keeps the equality exact. -/
theorem C1_amended_invariant_witness :
    |parseGoF (addExecutionP
        { name := "p", status := StatusActive, totalAmount := "10",
          totalExecuted := "0", remainingAmount := "10" }
        { amount := "2", status := ExecutionDeposited } "e1" 1 "2026-01-01").totalAmount -
      sumDepComp (addExecutionP
        { name := "p", status := StatusActive, totalAmount := "10",
          totalExecuted := "0", remainingAmount := "10" }
        { amount := "2", status := ExecutionDeposited } "e1" 1 "2026-01-01").executionHistory -
      parseGoF (addExecutionP
        { name := "p", status := StatusActive, totalAmount := "10",
          totalExecuted := "0", remainingAmount := "10" }
        { amount := "2", status := ExecutionDeposited } "e1" 1 "2026-01-01").remainingAmount| ≤
      1 / 100000000 := by
  apply C1_amended_invariant
    { name := "p", status := StatusActive, totalAmount := "10",
      totalExecuted := "0", remainingAmount := "10" }
  · rfl
  · rfl
  · show Dec8 (parseGoF "10")
    rw [parseGoF_ten]
    exact ⟨1000000000, by norm_num⟩
  · refine AddReach.step _ _ _ "e1" 1 "2026-01-01" (AddReach.refl _) ?_
    intro _
    refine ⟨?_, ?_, ?_⟩
    · show Dec8 (parseGoF "2")
      rw [parseGoF_two]
      exact ⟨200000000, by norm_num⟩
    · show (0 : ℚ) < parseGoF "2"
      rw [parseGoF_two]
      norm_num
    · show parseGoF "2" ≤ parseGoF "10"
      rw [parseGoF_two, parseGoF_ten]
      norm_num

/-- **C3**.  On a tick where the remaining daily amount (2) is the binding
bound, the Scheduler computes the trade size `min(5, 2, 10) = 2`, uses
`"2.00000000"` for the firm quote and for the recorded Pending execution —
but the `SendDeposit` call is made with `plan.AmountPerTrade` (`"5"`,
`part_005:316`), not with the computed trade size: the claim's last
conjunct fails in the code. -/
theorem C3_deposit_uses_amountPerTrade :
    ∃ out, executeTrade C3plan { price := "2999", priceFloat := 2999 } "2026-01-01"
        C3quote true (fun _ => true) (fun _ _ _ => Except.ok "tx1") "e1" 5
        = Except.ok out
      ∧ out.executeAmountStr = "2.00000000"
      ∧ out.quoteRequest.amount = out.executeAmountStr
      ∧ out.recordedExecution.amount = out.executeAmountStr
      ∧ out.recordedExecution.status = ExecutionPending
      ∧ out.depositCall = some ("bitcoin", "dep", "5")
      ∧ C3plan.amountPerTrade ≠ out.executeAmountStr := by
  have hpt : C3plan.amountPerTrade = "5" := rfl
  have hpd : C3plan.amountPerDay = "5" := rfl
  have hte : C3plan.todayExecuted = "3" := rfl
  have hra : C3plan.remainingAmount = "10" := rfl
  have hdaily : C3plan.getRemainingDailyAmount "2026-01-01" = fmt8 2 := by
    rw [TradingPlan.getRemainingDailyAmount, if_neg (by decide)]
    show (if parseGoF C3plan.amountPerDay - parseGoF C3plan.todayExecuted < 0
        then "0" else fmt8 (parseGoF C3plan.amountPerDay - parseGoF C3plan.todayExecuted))
      = fmt8 2
    rw [hpd, hte, parseGoF_five, parseGoF_three, if_neg (by norm_num)]
    norm_num
  have hdaily2 : parseGoF (C3plan.getRemainingDailyAmount "2026-01-01") = 2 := by
    rw [hdaily, parseGoF_fmt8, round8_eq_self ⟨200000000, by norm_num⟩]
  have hsc : C3plan.sourceChain = "bitcoin" := rfl
  simp only [executeTrade, hpt, hra, hsc, hdaily2, parseGoF_five, parseGoF_ten,
    C3quote, C3quoteResp, addExecution, handleAutoDeposit,
    addExecutionP_sourceChain, addExecutionP_amountPerTrade]
  norm_num [fmt8_two]
  decide

/-- **C4**.  The Registry's `AddExecution` (`manager.go:198`) returns only an
error result — in the model, only the mutated plan; no execution id is part
of the result.  The id it assigns is visible solely as the id of the entry
it appends to the plan's execution history, namely the internally generated
`genId` — yet the Scheduler call site (`part_005:283`) binds an id from the
call's results, which does not type-check against this signature. -/
theorem C4_addExecution_returns_only_plan (plan : TradingPlan) (e : Execution)
    (genId : String) (now : Nat) (today : String) :
    ∃ q, addExecution plan e genId now today = Except.ok q
      ∧ (q.executionHistory.map Execution.id).getLast? = some genId := by
  refine ⟨addExecutionP plan e genId now today, rfl, ?_⟩
  rw [addExecutionP_executionHistory]
  simp

end NearSwap
